import Mathlib

/-!
# Verification of the Solarized theme lightener color core (`lightener.py`)

A shallow embedding, over exact rationals, of the color-space converter and
channel adjuster of `lightener.py`:

* `rgb_to_hsl` embeds `LightenUp._rgb_to_hsl`;
* `hue_to_rgb` embeds `LightenUp._hue_to_rgb`;
* `hsl_to_rgb` embeds `LightenUp._hsl_to_rgb`;
* `inc_value` embeds `LightenUp._inc_value`, `alter` embeds `LightenUp.alter`;
* `hex_to_hsl`, `hsl_to_hex`, `handleOption` embed the same-named methods;
* Python strings are embedded as `List Char`; `pyHex2` embeds the expression
  `hex(c)[2:].zfill(2)`; `pymod` embeds Python's float `%` (sign of divisor,
  `x % y = x - y*floor(x/y)`); `math.ceil` is `⌈·⌉ : ℚ → ℤ`.

Python float literals (`0.333`, `0.666`, `0.5`) are embedded as the exact
rationals they denote in decimal.  Guarded divisions (`delta` and the
saturation denominator are only used when nonzero) make ℚ's `x / 0 = 0`
convention immaterial.

One semantic note recorded here and used below: in `_hsl_to_rgb` the source
tests `if s is 0:` — an *identity* comparison between a freshly computed
`float` and the `int` literal `0`, which is `False` in Python for every value
that reaches it.  The achromatic branch is therefore dead code and the `else`
branch is the executed semantics for every input, including `s == 0`; the
embedding reflects the executed semantics.  (The achromatic *result* claimed
by the spec still holds, because with `s = 0` the live branch has
`var_1 = var_2 = l` and `_hue_to_rgb` is then constantly `l`; this is proved
below.)
-/

namespace Lightener

/-- Python's float modulo (used as `% 6.0` in `_rgb_to_hsl`):
`x % y = x - y * floor (x / y)`. -/
def pymod (x y : ℚ) : ℚ := x - y * (⌊x / y⌋ : ℤ)

/-- Embedding of `LightenUp._hue_to_rgb(v1, v2, vH)` (lightener.py lines
174–198).  `0.666` is the source's literal. -/
def hue_to_rgb (v1 v2 vH : ℚ) : ℚ :=
  let vH1 := if vH < 0 then vH + 1 else vH
  let vH2 := if 1 < vH1 then vH1 - 1 else vH1
  if 6 * vH2 < 1 then v2 + (v1 - v2) * 6 * vH2
  else if 2 * vH2 < 1 then v1
  else if 3 * vH2 < 2 then v2 + (v1 - v2) * (666/1000 - vH2) * 6
  else v2

/-- Embedding of `LightenUp._hsl_to_rgb(h, s, l)` (lines 134–172).
The `if s is 0:` identity test is `False` for every float reaching it (see
module comment), so the executed body is the `else` branch; `math.ceil`
followed by `int()` is `⌈·⌉`. -/
def hsl_to_rgb (h s l : ℚ) : ℤ × ℤ × ℤ :=
  let h1 := h / 360
  let s1 := s / 100
  let l1 := l / 100
  let var_1 := if l1 < 1/2 then l1 * (1 + s1) else (l1 + s1) - l1 * s1
  let var_2 := 2 * l1 - var_1
  (⌈255 * hue_to_rgb var_1 var_2 (h1 + 333/1000)⌉,
   ⌈255 * hue_to_rgb var_1 var_2 h1⌉,
   ⌈255 * hue_to_rgb var_1 var_2 (h1 - 333/1000)⌉)

/-- Embedding of `LightenUp._rgb_to_hsl(r, g, b)` (lines 86–132): channels are
naturals 0–255, normalized to [0,1]; hue via the three max-branches (the
red branch uses Python's `% 6.0`); the final `elif delta == 0: h = 0` is the
residual case of the chain. -/
def rgb_to_hsl (r g b : ℕ) : ℚ × ℚ × ℚ :=
  let r1 : ℚ := (r : ℚ) / 255
  let g1 : ℚ := (g : ℚ) / 255
  let b1 : ℚ := (b : ℚ) / 255
  let cmax := max r1 (max g1 b1)
  let cmin := min r1 (min g1 b1)
  let delta := cmax - cmin
  let h : ℚ :=
    if cmax = r1 ∧ 0 < delta then 60 * pymod ((g1 - b1) / delta) 6
    else if cmax = g1 ∧ 0 < delta then 60 * ((b1 - r1) / delta + 2)
    else if cmax = b1 ∧ 0 < delta then 60 * ((r1 - g1) / delta + 4)
    else 0
  let l := (cmax + cmin) / 2
  let s : ℚ := if delta = 0 then 0 else delta / (1 - |2 * l - 1|)
  (h, s * 100, l * 100)

/-- Embedding of `LightenUp._inc_value(value, inc)` (lines 77–84); a missing
command-line delta is `None`, i.e. `none`. -/
def inc_value (value : ℚ) (inc : Option ℤ) : ℚ :=
  match inc with
  | none => value
  | some i =>
    let new_val := value + (i : ℚ)
    if 0 ≤ new_val ∧ new_val ≤ 100 then new_val else value

/-- Embedding of `LightenUp.alter(value, saturation, lightness)` (lines
55–59): component 0 is hue (untouched), 1 saturation, 2 lightness. -/
def alter (value : ℚ × ℚ × ℚ) (saturation lightness : Option ℤ) : ℚ × ℚ × ℚ :=
  (value.1, inc_value value.2.1 saturation, inc_value value.2.2 lightness)

/-- The character class `[0-9a-f]` of the regex in `handleOption` (line 35),
by code point. -/
def isHexDigit (c : Char) : Bool :=
  (48 ≤ c.toNat ∧ c.toNat ≤ 57) ∨ (97 ≤ c.toNat ∧ c.toNat ≤ 102)

/-- Value of one hex digit, as `int(_, 16)` computes it on the characters
admitted by the regex (`'0'`–`'9'` are 48–57, `'a'`–`'f'` are 97–102). -/
def hexDigitVal (c : Char) : ℕ :=
  if c.toNat ≤ 57 then c.toNat - 48 else c.toNat - 87

/-- `int(c1 ++ c2, 16)` on a two-character slice. -/
def hexPair (c1 c2 : Char) : ℕ := 16 * hexDigitVal c1 + hexDigitVal c2

/-- The slicing loop of `hex_to_hsl` (line 52):
`int(value[i:i+2], 16) for i in range(0, 6, 2)` — only the first six
characters are read.  (On shorter strings the source raises; the guard in
`handleOption` prevents that, and the fallback value is never used under it.) -/
def hex_to_rgb (s : List Char) : ℕ × ℕ × ℕ :=
  match s with
  | c1 :: c2 :: c3 :: c4 :: c5 :: c6 :: _ =>
      (hexPair c1 c2, hexPair c3 c4, hexPair c5 c6)
  | _ => (0, 0, 0)

/-- Embedding of `LightenUp.hex_to_hsl(value)` (lines 51–53). -/
def hex_to_hsl (s : List Char) : ℚ × ℚ × ℚ :=
  let rgb := hex_to_rgb s
  rgb_to_hsl rgb.1 rgb.2.1 rgb.2.2

/-- `re.match('[0-9a-f]{6}', value)` (line 35): a *prefix* match — true iff
the string has at least six characters and the first six are lowercase hex
digits; anything after them is ignored. -/
def matchHex6 (s : List Char) : Bool :=
  match s with
  | c1 :: c2 :: c3 :: c4 :: c5 :: c6 :: _ =>
      isHexDigit c1 && isHexDigit c2 && isHexDigit c3 &&
      isHexDigit c4 && isHexDigit c5 && isHexDigit c6
  | _ => false

/-- One hex digit character, as CPython's lowercase `hex()` emits it. -/
def hexDigitChar (n : ℕ) : Char :=
  if n < 10 then Char.ofNat (48 + n) else Char.ofNat (87 + n)

/-- Minimal base-16 digit string of a natural (msd first, `0 ↦ "0"`),
computed with structural fuel so that it reduces definitionally. -/
def natHexCore : ℕ → ℕ → List Char
  | 0, _ => []
  | fuel + 1, n =>
      if n < 16 then [hexDigitChar n]
      else natHexCore fuel (n / 16) ++ [hexDigitChar (n % 16)]

/-- Digits of `hex(n)` after the `0x`. -/
def natHexDigits (n : ℕ) : List Char := natHexCore (n + 1) n

/-- Python's `hex(n)` string: `'0x…'` for `n ≥ 0`, `'-0x…'` for `n < 0`. -/
def pyHexRepr (n : ℤ) : List Char :=
  if n < 0 then '-' :: '0' :: 'x' :: natHexDigits n.natAbs
  else '0' :: 'x' :: natHexDigits n.toNat

/-- Python's `str.zfill(2)`: left-pad with `'0'` to length 2, keeping a
leading sign in place. -/
def zfill2 (s : List Char) : List Char :=
  match s with
  | [] => ['0', '0']
  | [c] => if c = '-' ∨ c = '+' then [c, '0'] else ['0', c]
  | _ => s

/-- The per-channel formatting `hex(c)[2:].zfill(2)` of `hsl_to_hex`
(lines 65–67). -/
def pyHex2 (n : ℤ) : List Char := zfill2 ((pyHexRepr n).drop 2)

/-- Embedding of `LightenUp.hsl_to_hex(value)` (lines 61–69). -/
def hsl_to_hex (value : ℚ × ℚ × ℚ) : List Char :=
  let rgb := hsl_to_rgb value.1 value.2.1 value.2.2
  pyHex2 rgb.1 ++ pyHex2 rgb.2.1 ++ pyHex2 rgb.2.2

/-- Embedding of the conversion core of `LightenUp.handleOption` (lines
29–49): a value is converted iff the prefix regex matches; the XML plumbing
around it is represented by returning `some newValue` (the `option.set`)
versus `none` (the early return / failed match). -/
def handleOption (value : List Char) (saturation lightness : Option ℤ) :
    Option (List Char) :=
  if matchHex6 value then
    some (hsl_to_hex (alter (hex_to_hsl value) saturation lightness))
  else none


/-! ### Abbreviations for the components of `_rgb_to_hsl`

These name the subexpressions of `rgb_to_hsl` (its `let`-bound values) so the
proofs below can speak about them; `rgb_to_hsl_eq` below shows, definitionally,
that `rgb_to_hsl` is exactly their combination. -/

/-- Channel normalization `float(c) / 255.0`. -/
def chan (n : ℕ) : ℚ := (n : ℚ) / 255

def cmaxOf (r g b : ℕ) : ℚ := max (chan r) (max (chan g) (chan b))

def cminOf (r g b : ℕ) : ℚ := min (chan r) (min (chan g) (chan b))

def deltaOf (r g b : ℕ) : ℚ := cmaxOf r g b - cminOf r g b

def hueOf (r g b : ℕ) : ℚ :=
  if cmaxOf r g b = chan r ∧ 0 < deltaOf r g b then
    60 * pymod ((chan g - chan b) / deltaOf r g b) 6
  else if cmaxOf r g b = chan g ∧ 0 < deltaOf r g b then
    60 * ((chan b - chan r) / deltaOf r g b + 2)
  else if cmaxOf r g b = chan b ∧ 0 < deltaOf r g b then
    60 * ((chan r - chan g) / deltaOf r g b + 4)
  else 0

def lightOf (r g b : ℕ) : ℚ := (cmaxOf r g b + cminOf r g b) / 2

def satOf (r g b : ℕ) : ℚ :=
  if deltaOf r g b = 0 then 0
  else deltaOf r g b / (1 - |2 * lightOf r g b - 1|)


/-- `q` is within the round-trip tolerance window of `target`:
`255*q` lies in `(255*target - 2, 255*target + 1]`. -/
def near1 (q target : ℚ) : Prop :=
  255 * target - 2 < 255 * q ∧ 255 * q ≤ 255 * target + 1


end Lightener

namespace Lightener

/-! ## Basic facts about the embedded operations -/

/-- `pymod x 6` is six times the fractional part of `x / 6`. -/
theorem pymod_six_eq (x : ℚ) : pymod x 6 = 6 * Int.fract (x / 6) := by
  unfold pymod Int.fract
  ring

/-- Python's `% 6.0` lands in `[0, 6)`. -/
theorem pymod_six_bounds (x : ℚ) : 0 ≤ pymod x 6 ∧ pymod x 6 < 6 := by
  rw [pymod_six_eq]
  constructor
  · have := Int.fract_nonneg (x / 6)
    linarith
  · have := Int.fract_lt_one (x / 6)
    linarith

/-- On `[0, 6)` Python's `% 6.0` is the identity. -/
theorem pymod_six_of_nonneg (x : ℚ) (h0 : 0 ≤ x) (h6 : x < 6) : pymod x 6 = x := by
  unfold pymod
  have hfl : ⌊x / 6⌋ = 0 := by
    rw [Int.floor_eq_zero_iff]
    constructor
    · positivity
    · rw [div_lt_one (by norm_num : (0:ℚ) < 6)]
      simpa using h6
  rw [hfl]
  push_cast
  ring

/-- On `[-6, 0)` Python's `% 6.0` adds six. -/
theorem pymod_six_of_neg (x : ℚ) (h0 : -6 ≤ x) (h6 : x < 0) : pymod x 6 = x + 6 := by
  unfold pymod
  have hfl : ⌊x / 6⌋ = -1 := by
    rw [Int.floor_eq_iff]
    push_cast
    constructor
    · linarith
    · have : x / 6 < 0 := div_neg_of_neg_of_pos h6 (by norm_num)
      linarith
  rw [hfl]
  push_cast
  ring

/-- `_hue_to_rgb` with equal `v1 = v2` is constantly that value. -/
theorem hue_to_rgb_const (v x : ℚ) : hue_to_rgb v v x = v := by
  unfold hue_to_rgb
  simp

end Lightener

namespace Lightener

/-! ## Claim C3 — adjustment policy of `_inc_value` -/

/-- C3: for every channel value and integer delta, `_inc_value` computes
`candidate = channel + delta`; if the candidate lies in `[0, 100]` the channel
becomes the candidate, otherwise the channel keeps its original value (the
delta is rejected, not clamped).  In particular saturation 90 with delta +20
stays 90, and 90 with delta +5 becomes 95. -/
theorem inc_value_policy (value : ℚ) (d : ℤ) :
    (0 ≤ value + (d : ℚ) ∧ value + (d : ℚ) ≤ 100 →
      inc_value value (some d) = value + (d : ℚ)) ∧
    (¬(0 ≤ value + (d : ℚ) ∧ value + (d : ℚ) ≤ 100) →
      inc_value value (some d) = value) ∧
    inc_value 90 (some 20) = 90 ∧ inc_value 90 (some 5) = 95 := by
  refine ⟨fun h => ?_, fun h => ?_, ?_, ?_⟩
  · simp only [inc_value, if_pos h]
  · simp only [inc_value, if_neg h]
  · norm_num [inc_value]
  · norm_num [inc_value]

/-- Witness for C3 at the spec's concrete vectors. -/
theorem inc_value_policy_witness :
    inc_value 90 (some 5) = 95 ∧ inc_value 90 (some 20) = 90 := by
  constructor
  · have h := (inc_value_policy 90 5).1 (by norm_num)
    norm_num at h
    exact h
  · exact (inc_value_policy 90 20).2.1 (by norm_num)

/-! ## Claims C7 and C8 — the adjuster's frame conditions -/

/-- C7: `alter` never modifies the hue component, for any input HSL value and
any combination of present/absent saturation and lightness deltas. -/
theorem alter_preserves_hue (v : ℚ × ℚ × ℚ) (sd ld : Option ℤ) :
    (alter v sd ld).1 = v.1 := rfl

/-- C8: `alter` with both deltas absent returns its input unchanged in all
three components. -/
theorem alter_none_none_id (v : ℚ × ℚ × ℚ) : alter v none none = v := rfl

/-! ## Claim C6 — achromatic RGB input -/

/-- C6: on an achromatic RGB triple (`r = g = b`, channel at most 255)
`_rgb_to_hsl` returns saturation 0 and hue 0. -/
theorem rgb_to_hsl_achromatic (r : ℕ) (hr : r ≤ 255) :
    (rgb_to_hsl r r r).2.1 = 0 ∧ (rgb_to_hsl r r r).1 = 0 := by
  unfold rgb_to_hsl
  norm_num

/-- Witness for C6 at `r = g = b = 128`. -/
theorem rgb_to_hsl_achromatic_witness :
    (rgb_to_hsl 128 128 128).2.1 = 0 ∧ (rgb_to_hsl 128 128 128).1 = 0 :=
  rgb_to_hsl_achromatic 128 (by norm_num)

/-! ## Claim C5 — `_hsl_to_rgb` with zero saturation -/

/-- C5: with saturation exactly 0 (hue and lightness in range),
`_hsl_to_rgb` returns three equal channels, each the ceiling of `l * 255`
after `l` is normalized to `[0, 1]`. -/
theorem hsl_to_rgb_zero_saturation (h l : ℚ) (hh : 0 ≤ h ∧ h < 360)
    (hl : 0 ≤ l ∧ l ≤ 100) :
    hsl_to_rgb h 0 l = (⌈l / 100 * 255⌉, ⌈l / 100 * 255⌉, ⌈l / 100 * 255⌉) := by
  unfold hsl_to_rgb
  have hvar : (if l / 100 < 1/2 then l / 100 * (1 + 0 / 100)
      else (l / 100 + 0 / 100) - l / 100 * (0 / 100)) = l / 100 := by
    split_ifs <;> ring
  simp only [hvar]
  have hv2 : 2 * (l / 100) - l / 100 = l / 100 := by ring
  rw [hv2]
  simp only [hue_to_rgb_const]
  have : 255 * (l / 100) = l / 100 * 255 := by ring
  rw [this]

/-- Witness for C5 at hue 120, lightness 40: all channels `⌈0.4·255⌉ = 102`. -/
theorem hsl_to_rgb_zero_saturation_witness :
    hsl_to_rgb 120 0 40 = (⌈(40 : ℚ) / 100 * 255⌉, ⌈(40 : ℚ) / 100 * 255⌉,
      ⌈(40 : ℚ) / 100 * 255⌉) :=
  hsl_to_rgb_zero_saturation 120 40 (by norm_num) (by norm_num)

end Lightener

namespace Lightener

/-! ## Claim C10 — range of the computed hue -/

/-- C10: for every RGB triple with channels in `[0, 255]`, the hue returned by
`_rgb_to_hsl` lies in `[0, 360)` (the red-max branch through `% 6.0`, the
green-max branch in `[60, 180]`, the blue-max branch in `[180, 300]`, and the
achromatic branch returning 0). -/
theorem hue_in_range (r g b : ℕ) (hr : r ≤ 255) (hg : g ≤ 255) (hb : b ≤ 255) :
    0 ≤ (rgb_to_hsl r g b).1 ∧ (rgb_to_hsl r g b).1 < 360 := by
  unfold rgb_to_hsl
  set R : ℚ := (r : ℚ) / 255 with hR
  set G : ℚ := (g : ℚ) / 255 with hG
  set B : ℚ := (b : ℚ) / 255 with hB
  simp only []
  set cmax := max R (max G B) with hcmax
  set cmin := min R (min G B) with hcmin
  have hRmax : R ≤ cmax := le_max_left _ _
  have hGmax : G ≤ cmax := le_trans (le_max_left _ _) (le_max_right _ _)
  have hBmax : B ≤ cmax := le_trans (le_max_right _ _) (le_max_right _ _)
  have hRmin : cmin ≤ R := min_le_left _ _
  have hGmin : cmin ≤ G := le_trans (min_le_right _ _) (min_le_left _ _)
  have hBmin : cmin ≤ B := le_trans (min_le_right _ _) (min_le_right _ _)
  split_ifs with h1 h2 h3
  · have := pymod_six_bounds ((G - B) / (cmax - cmin))
    constructor <;> linarith
  · obtain ⟨hmax, hd⟩ := h2
    have hu1 : (B - R) / (cmax - cmin) ≤ 1 := by
      rw [div_le_one hd]; linarith
    have hu2 : -1 ≤ (B - R) / (cmax - cmin) := by
      rw [le_div_iff₀ hd]; linarith
    constructor <;> linarith
  · obtain ⟨hmax, hd⟩ := h3
    have hu1 : (R - G) / (cmax - cmin) ≤ 1 := by
      rw [div_le_one hd]; linarith
    have hu2 : -1 ≤ (R - G) / (cmax - cmin) := by
      rw [le_div_iff₀ hd]; linarith
    constructor <;> linarith
  · norm_num

/-- Witness for C10 at the triple (10, 200, 30). -/
theorem hue_in_range_witness :
    0 ≤ (rgb_to_hsl 10 200 30).1 ∧ (rgb_to_hsl 10 200 30).1 < 360 :=
  hue_in_range 10 200 30 (by norm_num) (by norm_num) (by norm_num)

/-! ## Claim C9 — the pure-red concrete vector -/

/-- C9: the hex string `"ff0000"` converts to HSL `(0°, 100%, 50%)`, and that
HSL value converts back to exactly `"ff0000"`. -/
theorem red_vector_round_trip :
    hex_to_hsl ['f', 'f', '0', '0', '0', '0'] = (0, 100, 50) ∧
    hsl_to_hex (0, 100, 50) = ['f', 'f', '0', '0', '0', '0'] := by
  constructor
  · have h1 : hex_to_rgb ['f', 'f', '0', '0', '0', '0'] = (255, 0, 0) := by decide
    unfold hex_to_hsl
    rw [h1]
    unfold rgb_to_hsl pymod
    norm_num [max_def, min_def]
  · have h2 : hsl_to_rgb 0 100 50 = (255, 0, 0) := by
      unfold hsl_to_rgb hue_to_rgb
      norm_num
    show pyHex2 (hsl_to_rgb 0 100 50).1 ++ pyHex2 (hsl_to_rgb 0 100 50).2.1 ++
        pyHex2 (hsl_to_rgb 0 100 50).2.2 = _
    rw [h2]
    decide

/-! ## Claim C4 — loose prefix validation in `handleOption` -/

/-- C4: validation is a loose prefix match.  Every string that starts with six
lowercase hex digits is accepted regardless of trailing characters, the
conversion reads only those six characters (so trailing garbage never affects
the output), and a string not starting with six lowercase hex digits is not
converted. -/
theorem handleOption_loose_match (s : List Char) (sd ld : Option ℤ) :
    ((s.take 6).length = 6 ∧ (∀ c ∈ s.take 6, isHexDigit c = true) →
      matchHex6 s = true ∧
      handleOption s sd ld = handleOption (s.take 6) sd ld ∧
      (handleOption s sd ld).isSome = true) ∧
    (¬((s.take 6).length = 6 ∧ ∀ c ∈ s.take 6, isHexDigit c = true) →
      handleOption s sd ld = none) := by
  rcases s with _ | ⟨a1, _ | ⟨a2, _ | ⟨a3, _ | ⟨a4, _ | ⟨a5, _ | ⟨a6, rest⟩⟩⟩⟩⟩⟩
  case nil => exact ⟨fun h => by simp at h, fun _ => rfl⟩
  case cons.nil => exact ⟨fun h => by simp at h, fun _ => rfl⟩
  case cons.cons.nil => exact ⟨fun h => by simp at h, fun _ => rfl⟩
  case cons.cons.cons.nil => exact ⟨fun h => by simp at h, fun _ => rfl⟩
  case cons.cons.cons.cons.nil => exact ⟨fun h => by simp at h, fun _ => rfl⟩
  case cons.cons.cons.cons.cons.nil => exact ⟨fun h => by simp at h, fun _ => rfl⟩
  constructor
  · rintro ⟨-, hdig⟩
    simp only [List.take, List.mem_cons, forall_eq_or_imp, List.not_mem_nil,
      false_implies, implies_true, and_true] at hdig
    obtain ⟨h1, h2, h3, h4, h5, h6⟩ := hdig
    have hm : matchHex6 (a1 :: a2 :: a3 :: a4 :: a5 :: a6 :: rest) = true := by
      simp [matchHex6, h1, h2, h3, h4, h5, h6]
    have hm' : matchHex6 [a1, a2, a3, a4, a5, a6] = true := by
      simp [matchHex6, h1, h2, h3, h4, h5, h6]
    refine ⟨hm, ?_, ?_⟩
    · simp only [List.take]
      unfold handleOption
      rw [hm, hm']
      rfl
    · unfold handleOption
      rw [hm]
      rfl
  · intro hneg
    have hm : matchHex6 (a1 :: a2 :: a3 :: a4 :: a5 :: a6 :: rest) = false := by
      by_contra hmt
      rw [Bool.not_eq_false] at hmt
      simp only [matchHex6, Bool.and_eq_true] at hmt
      obtain ⟨⟨⟨⟨⟨h1, h2⟩, h3⟩, h4⟩, h5⟩, h6⟩ := hmt
      refine hneg ⟨by simp, ?_⟩
      simp only [List.take, List.mem_cons, forall_eq_or_imp, List.not_mem_nil,
        false_implies, implies_true, and_true]
      exact ⟨h1, h2, h3, h4, h5, h6⟩
    unfold handleOption
    rw [hm]
    simp

/-- Witness for C4: `"abcdefz"` is accepted and converts exactly as
`"abcdef"` does. -/
theorem handleOption_loose_match_witness :
    matchHex6 ['a', 'b', 'c', 'd', 'e', 'f', 'z'] = true ∧
    handleOption ['a', 'b', 'c', 'd', 'e', 'f', 'z'] none none =
      handleOption ['a', 'b', 'c', 'd', 'e', 'f'] none none := by
  have h := (handleOption_loose_match ['a', 'b', 'c', 'd', 'e', 'f', 'z']
    none none).1 ⟨by decide, by decide⟩
  exact ⟨h.1, h.2.1⟩

end Lightener

namespace Lightener

theorem hue_eval_b1 (v1 v2 vH : ℚ) (h0 : 0 ≤ vH) (hc : 6 * vH < 1) :
    hue_to_rgb v1 v2 vH = v2 + (v1 - v2) * 6 * vH := by
  unfold hue_to_rgb
  simp only []
  rw [if_neg (not_lt.mpr h0), if_neg (by push_neg; linarith : ¬ (1:ℚ) < vH)]
  rw [if_pos hc]

theorem hue_eval_b2 (v1 v2 vH : ℚ) (h0 : 0 ≤ vH) (h1 : vH ≤ 1)
    (hc1 : 1 ≤ 6 * vH) (hc2 : 2 * vH < 1) :
    hue_to_rgb v1 v2 vH = v1 := by
  unfold hue_to_rgb
  simp only []
  rw [if_neg (not_lt.mpr h0), if_neg (not_lt.mpr h1),
    if_neg (not_lt.mpr hc1), if_pos hc2]

theorem hue_eval_b3 (v1 v2 vH : ℚ) (h0 : 0 ≤ vH) (h1 : vH ≤ 1)
    (hc1 : 1 ≤ 2 * vH) (hc2 : 3 * vH < 2) :
    hue_to_rgb v1 v2 vH = v2 + (v1 - v2) * (666/1000 - vH) * 6 := by
  unfold hue_to_rgb
  simp only []
  rw [if_neg (not_lt.mpr h0), if_neg (not_lt.mpr h1),
    if_neg (by push_neg; linarith : ¬ 6 * vH < 1), if_neg (not_lt.mpr hc1),
    if_pos hc2]

theorem hue_eval_b4 (v1 v2 vH : ℚ) (h0 : 0 ≤ vH) (h1 : vH ≤ 1)
    (hc : 2 ≤ 3 * vH) :
    hue_to_rgb v1 v2 vH = v2 := by
  unfold hue_to_rgb
  simp only []
  rw [if_neg (not_lt.mpr h0), if_neg (not_lt.mpr h1),
    if_neg (by push_neg; linarith : ¬ 6 * vH < 1),
    if_neg (by push_neg; linarith : ¬ 2 * vH < 1), if_neg (not_lt.mpr hc)]

theorem hue_wrap_lo (v1 v2 vH : ℚ) (h : vH < 0) (h1 : -1 ≤ vH) :
    hue_to_rgb v1 v2 vH = hue_to_rgb v1 v2 (vH + 1) := by
  unfold hue_to_rgb
  simp only []
  rw [if_pos h, if_neg (by push_neg; linarith : ¬ (1:ℚ) < vH + 1),
    if_neg (by push_neg; linarith : ¬ vH + 1 < 0)]
  rw [if_neg (by push_neg; linarith : ¬ (1:ℚ) < vH + 1)]

theorem hue_wrap_hi (v1 v2 vH : ℚ) (h : 1 < vH) (h2 : vH ≤ 2) :
    hue_to_rgb v1 v2 vH = hue_to_rgb v1 v2 (vH - 1) := by
  unfold hue_to_rgb
  simp only []
  rw [if_neg (by push_neg; linarith : ¬ vH < 0), if_pos h,
    if_neg (by push_neg; linarith : ¬ vH - 1 < 0),
    if_neg (by push_neg; linarith : ¬ (1:ℚ) < vH - 1)]

theorem hue_le_left (v1 v2 vH : ℚ) (hv : v2 ≤ v1) (hlo : -1 ≤ vH)
    (hhi : vH ≤ 2) :
    hue_to_rgb v1 v2 vH ≤ v1 := by
  unfold hue_to_rgb
  simp only []
  split_ifs <;> nlinarith

theorem hue_ge_right (v1 v2 vH : ℚ) (hv : v2 ≤ v1) (h0 : 0 ≤ vH)
    (hle : vH ≤ 666/1000) :
    v2 ≤ hue_to_rgb v1 v2 vH := by
  unfold hue_to_rgb
  simp only []
  split_ifs <;> nlinarith

theorem var1_eq (m M l s : ℚ) (h0 : 0 ≤ m) (hlt : m < M) (hM : M ≤ 1)
    (hl : l = (M + m) / 2) (hs : s = (M - m) / (1 - |2 * l - 1|)) :
    (if l < 1/2 then l * (1 + s) else (l + s) - l * s) = M := by
  subst hl hs
  by_cases hc : (M + m) / 2 < 1/2
  · rw [if_pos hc]
    have habs : |2 * ((M + m) / 2) - 1| = 1 - (M + m) := by
      rw [abs_of_nonpos (by linarith)]
      ring
    rw [habs]
    have h1 : (1 : ℚ) - (1 - (M + m)) = M + m := by ring
    rw [h1]
    have hne : M + m ≠ 0 := ne_of_gt (by linarith)
    field_simp
    ring
  · rw [if_neg hc]
    push_neg at hc
    have habs : |2 * ((M + m) / 2) - 1| = (M + m) - 1 := by
      rw [abs_of_nonneg (by linarith)]
      ring
    rw [habs]
    have h1 : (1 : ℚ) - ((M + m) - 1) = 2 - M - m := by ring
    rw [h1]
    have hne : (2 : ℚ) - M - m ≠ 0 := by
      have : m < 1 := lt_of_lt_of_le hlt hM
      intro hz
      have : M + m = 2 := by linarith
      linarith
    field_simp
    ring

theorem ceil_close (y : ℚ) (c : ℤ) (h1 : (c : ℚ) - 2 < y) (h2 : y ≤ (c : ℚ) + 1) :
    c - 1 ≤ ⌈y⌉ ∧ ⌈y⌉ ≤ c + 1 := by
  constructor
  · have hy : (c : ℚ) - 2 < (⌈y⌉ : ℚ) := lt_of_lt_of_le h1 (Int.le_ceil y)
    have : ((c - 2 : ℤ) : ℚ) < (⌈y⌉ : ℚ) := by push_cast; linarith
    have := Int.cast_lt.mp this
    omega
  · rw [Int.ceil_le]
    push_cast
    linarith

end Lightener
namespace Lightener


theorem redmax_red (m M G B t : ℚ) (hm : 0 ≤ m) (hlt : m < M) (hM : M ≤ 1)
    (hG1 : m ≤ G) (hG2 : G ≤ M) (hB1 : m ≤ B) (hB2 : B ≤ M)
    (ht : t * (M - m) = G - B) (htlo : -1 ≤ t) (hthi : t ≤ 1) :
    near1 (hue_to_rgb M m (pymod t 6 / 6 + 333/1000)) M := by
  unfold near1
  rcases le_or_lt 0 t with htpos | htneg
  · rw [pymod_six_of_nonneg t htpos (by linarith)]
    rw [hue_eval_b2 M m _ (by linarith) (by linarith) (by linarith) (by linarith)]
    constructor <;> linarith
  · rw [pymod_six_of_neg t (by linarith) htneg]
    rw [hue_wrap_hi M m _ (by linarith) (by linarith)]
    by_cases hb : 6 * ((t + 6) / 6 + 333/1000 - 1) < 1
    · rw [hue_eval_b1 M m _ (by linarith) hb]
      have key : (M - m) * 6 * ((t + 6) / 6 + 333/1000 - 1) =
          (G - B) + 1998/1000 * (M - m) := by
        rw [← ht]; ring
      rw [key]
      have hp : (t + 998/1000) * (M - m) < 0 :=
        mul_neg_of_neg_of_pos (by linarith) (by linarith)
      have hp' : t * (M - m) + 998/1000 * (M - m) < 0 := by nlinarith [hp]
      constructor <;> [nlinarith [ht]; nlinarith [ht, hp']]
    · rw [hue_eval_b2 M m _ (by linarith) (by linarith) (by linarith) (by linarith)]
      constructor <;> linarith

theorem redmax_green (m M G B t : ℚ) (hm : 0 ≤ m) (hlt : m < M) (hM : M ≤ 1)
    (hG1 : m ≤ G) (hG2 : G ≤ M) (hB1 : m ≤ B) (hB2 : B ≤ M)
    (hmin : G = m ∨ B = m)
    (ht : t * (M - m) = G - B) (htlo : -1 ≤ t) (hthi : t ≤ 1) :
    near1 (hue_to_rgb M m (pymod t 6 / 6)) G := by
  unfold near1
  rcases le_or_lt 0 t with htpos | htneg
  · have hGB : 0 ≤ G - B := by
      rw [← ht]; exact mul_nonneg htpos (by linarith)
    have hBm : B = m := by
      rcases hmin with h | h
      · have : B ≤ G := by linarith
        linarith [hG1, hB1, h]
      · exact h
    rw [pymod_six_of_nonneg t htpos (by linarith)]
    by_cases hb : 6 * (t / 6) < 1
    · rw [hue_eval_b1 M m _ (by positivity) hb]
      have key : (M - m) * 6 * (t / 6) = G - B := by
        rw [← ht]; ring
      rw [key]
      constructor <;> nlinarith [hBm]
    · have ht1 : t = 1 := by
        have : 1 ≤ t := by linarith [not_lt.mp hb]
        linarith
      have hGB1 : G - B = M - m := by rw [← ht, ht1]; ring
      rw [hue_eval_b2 M m _ (by linarith) (by linarith) (by linarith) (by linarith)]
      constructor <;> nlinarith [hGB1, hBm]
  · have hGB : G - B < 0 := by
      rw [← ht]; exact mul_neg_of_neg_of_pos htneg (by linarith)
    have hGm : G = m := by
      rcases hmin with h | h
      · exact h
      · linarith [hB1, h]
    rw [pymod_six_of_neg t (by linarith) htneg]
    rw [hue_eval_b4 M m _ (by linarith) (by linarith) (by linarith)]
    constructor <;> linarith

theorem redmax_blue (m M G B t : ℚ) (hm : 0 ≤ m) (hlt : m < M) (hM : M ≤ 1)
    (hG1 : m ≤ G) (hG2 : G ≤ M) (hB1 : m ≤ B) (hB2 : B ≤ M)
    (hmin : G = m ∨ B = m)
    (ht : t * (M - m) = G - B) (htlo : -1 ≤ t) (hthi : t ≤ 1) :
    near1 (hue_to_rgb M m (pymod t 6 / 6 - 333/1000)) B := by
  unfold near1
  rcases le_or_lt 0 t with htpos | htneg
  · have hGB : 0 ≤ G - B := by
      rw [← ht]; exact mul_nonneg htpos (by linarith)
    have hBm : B = m := by
      rcases hmin with h | h
      · have : B ≤ G := by linarith
        linarith [hG1, hB1, h]
      · exact h
    rw [pymod_six_of_nonneg t htpos (by linarith)]
    rw [hue_wrap_lo M m _ (by linarith) (by linarith)]
    rw [hue_eval_b4 M m _ (by linarith) (by linarith) (by linarith)]
    constructor <;> linarith
  · have hGB : G - B < 0 := by
      rw [← ht]; exact mul_neg_of_neg_of_pos htneg (by linarith)
    have hGm : G = m := by
      rcases hmin with h | h
      · exact h
      · linarith [hB1, h]
    rw [pymod_six_of_neg t (by linarith) htneg]
    by_cases hb : 3 * ((t + 6) / 6 - 333/1000) < 2
    · rw [hue_eval_b3 M m _ (by linarith) (by linarith) (by linarith) hb]
      have key : (M - m) * (666/1000 - ((t + 6) / 6 - 333/1000)) * 6 =
          -(G - B) - 6/1000 * (M - m) := by
        rw [← ht]; ring
      rw [key]
      constructor <;> nlinarith [hGm]
    · rw [hue_eval_b4 M m _ (by linarith) (by linarith) (by linarith)]
      have hp : (-t) * (M - m) ≤ 2/1000 * (M - m) := by
        apply mul_le_mul_of_nonneg_right _ (by linarith)
        linarith [not_lt.mp hb]
      have hp' : -(t * (M - m)) ≤ 2/1000 * (M - m) := by nlinarith [hp]
      constructor <;> nlinarith [ht, hp', hGm]

end Lightener
namespace Lightener

theorem greenmax_red (m M R B u : ℚ) (hm : 0 ≤ m) (hlt : m < M) (hM : M ≤ 1)
    (hR1 : m ≤ R) (hR2 : R < M) (hB1 : m ≤ B) (hB2 : B ≤ M)
    (hmin : R = m ∨ B = m)
    (hu : u * (M - m) = B - R) (hulo : -1 ≤ u) (huhi : u ≤ 1) :
    near1 (hue_to_rgb M m ((u + 2) / 6 + 333/1000)) R := by
  unfold near1
  by_cases hb2 : 2 * ((u + 2) / 6 + 333/1000) < 1
  · rw [hue_eval_b2 M m _ (by linarith) (by linarith) (by linarith) hb2]
    have hu998 : u < -998/1000 := by linarith
    have hp : u * (M - m) < -998/1000 * (M - m) :=
      mul_lt_mul_of_pos_right hu998 (by linarith)
    have hBm : B = m := by
      rcases hmin with h | h
      · exfalso
        nlinarith [hp, hu]
      · exact h
    constructor <;> nlinarith [hp, hu, hBm]
  · by_cases hb3 : 3 * ((u + 2) / 6 + 333/1000) < 2
    · rw [hue_eval_b3 M m _ (by linarith) (by linarith) (by linarith) hb3]
      have key : (M - m) * (666/1000 - ((u + 2) / 6 + 333/1000)) * 6 =
          -(B - R) - 2/1000 * (M - m) := by
        rw [← hu]; ring
      rw [key]
      have hu002 : u < 2/1000 := by linarith
      have hp : u * (M - m) < 2/1000 * (M - m) :=
        mul_lt_mul_of_pos_right hu002 (by linarith)
      rcases hmin with h | h
      · constructor <;> nlinarith [hp, hu, h]
      · have hBR : B ≤ R := by linarith [h, hR1]
        constructor <;> nlinarith [hu, h, hBR]
    · rw [hue_eval_b4 M m _ (by linarith) (by linarith) (by linarith)]
      have hu002 : 2/1000 ≤ u := by linarith
      have hp : 2/1000 * (M - m) ≤ u * (M - m) :=
        mul_le_mul_of_nonneg_right hu002 (by linarith)
      have hRm : R = m := by
        rcases hmin with h | h
        · exact h
        · exfalso
          nlinarith [hp, hu, h]
      constructor <;> nlinarith [hRm]

theorem greenmax_green (m M R B u : ℚ) (hm : 0 ≤ m) (hlt : m < M) (hM : M ≤ 1)
    (hR1 : m ≤ R) (hR2 : R < M) (hB1 : m ≤ B) (hB2 : B ≤ M)
    (hu : u * (M - m) = B - R) (hulo : -1 ≤ u) (huhi : u ≤ 1) :
    near1 (hue_to_rgb M m ((u + 2) / 6)) M := by
  unfold near1
  by_cases hb2 : 2 * ((u + 2) / 6) < 1
  · rw [hue_eval_b2 M m _ (by linarith) (by linarith) (by linarith) hb2]
    constructor <;> linarith
  · have hu1 : u = 1 := by
      have : 1 ≤ u := by linarith [not_lt.mp hb2]
      linarith
    subst hu1
    rw [hue_eval_b3 M m _ (by norm_num) (by norm_num) (by norm_num) (by norm_num)]
    constructor <;> nlinarith []

theorem greenmax_blue (m M R B u : ℚ) (hm : 0 ≤ m) (hlt : m < M) (hM : M ≤ 1)
    (hR1 : m ≤ R) (hR2 : R < M) (hB1 : m ≤ B) (hB2 : B ≤ M)
    (hmin : R = m ∨ B = m)
    (hu : u * (M - m) = B - R) (hulo : -1 ≤ u) (huhi : u ≤ 1) :
    near1 (hue_to_rgb M m ((u + 2) / 6 - 333/1000)) B := by
  unfold near1
  by_cases hwrap : (u + 2) / 6 - 333/1000 < 0
  · rw [hue_wrap_lo M m _ hwrap (by linarith)]
    rw [hue_eval_b4 M m _ (by linarith) (by linarith) (by linarith)]
    have huneg : u < -2/1000 := by linarith
    have hp : u * (M - m) < -2/1000 * (M - m) :=
      mul_lt_mul_of_pos_right huneg (by linarith)
    have hBm : B = m := by
      rcases hmin with h | h
      · exfalso
        nlinarith [hp, hu, h, hB1]
      · exact h
    constructor <;> linarith [hBm]
  · push_neg at hwrap
    by_cases hb1 : 6 * ((u + 2) / 6 - 333/1000) < 1
    · rw [hue_eval_b1 M m _ hwrap hb1]
      have key : (M - m) * 6 * ((u + 2) / 6 - 333/1000) =
          (B - R) + 2/1000 * (M - m) := by
        rw [← hu]; ring
      rw [key]
      have hun : -2/1000 ≤ u := by linarith
      have hp : -2/1000 * (M - m) ≤ u * (M - m) :=
        mul_le_mul_of_nonneg_right hun (by linarith)
      rcases hmin with h | h
      · constructor <;> nlinarith [h]
      · constructor <;> nlinarith [hp, hu, h]
    · rw [hue_eval_b2 M m _ (by linarith) (by linarith) (by linarith) (by linarith)]
      have hu998 : 998/1000 ≤ u := by linarith
      have hp : 998/1000 * (M - m) ≤ u * (M - m) :=
        mul_le_mul_of_nonneg_right hu998 (by linarith)
      constructor <;> nlinarith [hp, hu]

theorem bluemax_red (m M R G w : ℚ) (hm : 0 ≤ m) (hlt : m < M) (hM : M ≤ 1)
    (hR1 : m ≤ R) (hR2 : R < M) (hG1 : m ≤ G) (hG2 : G < M)
    (hmin : R = m ∨ G = m)
    (hw : w * (M - m) = R - G) (hwlo : -1 ≤ w) (hwhi : w ≤ 1) :
    near1 (hue_to_rgb M m ((w + 4) / 6 + 333/1000)) R := by
  unfold near1
  by_cases hwrap : 1 < (w + 4) / 6 + 333/1000
  · rw [hue_wrap_hi M m _ hwrap (by linarith)]
    rw [hue_eval_b1 M m _ (by linarith) (by linarith)]
    have key : (M - m) * 6 * ((w + 4) / 6 + 333/1000 - 1) =
        (R - G) - 2/1000 * (M - m) := by
      rw [← hw]; ring
    rw [key]
    have hwpos : 2/1000 < w := by linarith
    have hp : 2/1000 * (M - m) < w * (M - m) :=
      mul_lt_mul_of_pos_right hwpos (by linarith)
    have hGm : G = m := by
      rcases hmin with h | h
      · exfalso
        nlinarith [hp, hw, h, hG1]
      · exact h
    constructor <;> nlinarith [hGm]
  · push_neg at hwrap
    rw [hue_eval_b4 M m _ (by linarith) hwrap (by linarith)]
    have hw002 : w ≤ 2/1000 := by linarith
    have hp : w * (M - m) ≤ 2/1000 * (M - m) :=
      mul_le_mul_of_nonneg_right hw002 (by linarith)
    rcases hmin with h | h
    · constructor <;> nlinarith [h]
    · constructor <;> nlinarith [hp, hw, h, hR1]

theorem bluemax_green (m M R G w : ℚ) (hm : 0 ≤ m) (hlt : m < M) (hM : M ≤ 1)
    (hR1 : m ≤ R) (hR2 : R < M) (hG1 : m ≤ G) (hG2 : G < M)
    (hmin : R = m ∨ G = m)
    (hw : w * (M - m) = R - G) (hwlo : -1 ≤ w) (hwhi : w ≤ 1) :
    near1 (hue_to_rgb M m ((w + 4) / 6)) G := by
  unfold near1
  by_cases hb3 : 3 * ((w + 4) / 6) < 2
  · rw [hue_eval_b3 M m _ (by linarith) (by linarith) (by linarith) hb3]
    have key : (M - m) * (666/1000 - (w + 4) / 6) * 6 =
        -(R - G) - 4/1000 * (M - m) := by
      rw [← hw]; ring
    rw [key]
    have hwneg : w < 0 := by linarith
    have hp : w * (M - m) < 0 := mul_neg_of_neg_of_pos hwneg (by linarith)
    have hRm : R = m := by
      rcases hmin with h | h
      · exact h
      · exfalso
        nlinarith [hp, hw, h, hR1]
    constructor <;> nlinarith [hRm]
  · rw [hue_eval_b4 M m _ (by linarith) (by linarith) (by linarith)]
    have hwpos : 0 ≤ w := by linarith
    have hp : 0 ≤ w * (M - m) := mul_nonneg hwpos (by linarith)
    have hGm : G = m := by
      rcases hmin with h | h
      · have : G ≤ R := by linarith [hp, hw]
        linarith [h, hG1]
      · exact h
    constructor <;> linarith [hGm]

theorem bluemax_blue (m M R G w : ℚ) (hm : 0 ≤ m) (hlt : m < M) (hM : M ≤ 1)
    (hR1 : m ≤ R) (hR2 : R < M) (hG1 : m ≤ G) (hG2 : G < M)
    (hw : w * (M - m) = R - G) (hwlo : -1 ≤ w) (hwhi : w ≤ 1) :
    near1 (hue_to_rgb M m ((w + 4) / 6 - 333/1000)) M := by
  unfold near1
  by_cases hb2 : 2 * ((w + 4) / 6 - 333/1000) < 1
  · rw [hue_eval_b2 M m _ (by linarith) (by linarith) (by linarith) hb2]
    constructor <;> linarith
  · rw [hue_eval_b3 M m _ (by linarith) (by linarith) (by linarith) (by linarith)]
    have key : (M - m) * (666/1000 - ((w + 4) / 6 - 333/1000)) * 6 =
        -(R - G) + 1994/1000 * (M - m) := by
      rw [← hw]; ring
    rw [key]
    have hw998 : 998/1000 ≤ w := by linarith
    have hp : 998/1000 * (M - m) ≤ w * (M - m) :=
      mul_le_mul_of_nonneg_right hw998 (by linarith)
    constructor <;> nlinarith [hp, hw]

end Lightener
namespace Lightener

theorem lb_redmax_red (v1 v2 t : ℚ) (h2 : 0 ≤ v2) (h21 : v2 ≤ v1) (h11 : v1 ≤ 1)
    (htlo : -1 ≤ t) (hthi : t ≤ 1) :
    -1 < 255 * hue_to_rgb v1 v2 (pymod t 6 / 6 + 333/1000) := by
  rcases le_or_lt 0 t with htpos | htneg
  · rw [pymod_six_of_nonneg t htpos (by linarith)]
    have := hue_ge_right v1 v2 (t / 6 + 333/1000) h21 (by linarith) (by linarith)
    linarith
  · rw [pymod_six_of_neg t (by linarith) htneg]
    rw [hue_wrap_hi v1 v2 _ (by linarith) (by linarith)]
    have := hue_ge_right v1 v2 ((t + 6) / 6 + 333/1000 - 1) h21 (by linarith) (by linarith)
    linarith

theorem lb_redmax_green (v1 v2 t : ℚ) (h2 : 0 ≤ v2) (h21 : v2 ≤ v1) (h11 : v1 ≤ 1)
    (htlo : -1 ≤ t) (hthi : t ≤ 1) :
    -1 < 255 * hue_to_rgb v1 v2 (pymod t 6 / 6) := by
  rcases le_or_lt 0 t with htpos | htneg
  · rw [pymod_six_of_nonneg t htpos (by linarith)]
    have := hue_ge_right v1 v2 (t / 6) h21 (by linarith) (by linarith)
    linarith
  · rw [pymod_six_of_neg t (by linarith) htneg]
    rw [hue_eval_b4 v1 v2 _ (by linarith) (by linarith) (by linarith)]
    linarith

theorem lb_redmax_blue (v1 v2 t : ℚ) (h2 : 0 ≤ v2) (h21 : v2 ≤ v1) (h11 : v1 ≤ 1)
    (htlo : -1 ≤ t) (hthi : t ≤ 1)
    (hti : t = 0 ∨ t ≤ -1/255 ∨ 1/255 ≤ t) :
    -1 < 255 * hue_to_rgb v1 v2 (pymod t 6 / 6 - 333/1000) := by
  rcases le_or_lt 0 t with htpos | htneg
  · rw [pymod_six_of_nonneg t htpos (by linarith)]
    rw [hue_wrap_lo v1 v2 _ (by linarith) (by linarith)]
    rw [hue_eval_b4 v1 v2 _ (by linarith) (by linarith) (by linarith)]
    linarith
  · rw [pymod_six_of_neg t (by linarith) htneg]
    rcases le_or_lt ((t + 6) / 6 - 333/1000) (666/1000) with hsml | hbig
    · have := hue_ge_right v1 v2 ((t + 6) / 6 - 333/1000) h21 (by linarith) hsml
      linarith
    · rcases le_or_lt (2/3) ((t + 6) / 6 - 333/1000) with hb4 | hb3
      · rw [hue_eval_b4 v1 v2 _ (by linarith) (by linarith) (by linarith)]
        linarith
      · rw [hue_eval_b3 v1 v2 _ (by linarith) (by linarith) (by linarith) (by linarith)]
        have ht255 : t ≤ -1/255 := by
          rcases hti with h | h | h
          · exfalso; linarith
          · exact h
          · exfalso; linarith
        nlinarith [mul_le_mul_of_nonneg_left ht255 (by linarith : (0:ℚ) ≤ v1 - v2),
          mul_le_mul_of_nonneg_left (le_refl (v1 - v2)) (le_refl (1:ℚ))]

theorem lb_greenmax_red (v1 v2 u : ℚ) (h2 : 0 ≤ v2) (h21 : v2 ≤ v1) (h11 : v1 ≤ 1)
    (hulo : -1 ≤ u) (huhi : u ≤ 1)
    (hui : u = 0 ∨ u ≤ -1/255 ∨ 1/255 ≤ u) :
    -1 < 255 * hue_to_rgb v1 v2 ((u + 2) / 6 + 333/1000) := by
  rcases le_or_lt ((u + 2) / 6 + 333/1000) (666/1000) with hsml | hbig
  · have := hue_ge_right v1 v2 ((u + 2) / 6 + 333/1000) h21 (by linarith) hsml
    linarith
  · rcases le_or_lt (2/3) ((u + 2) / 6 + 333/1000) with hb4 | hb3
    · rw [hue_eval_b4 v1 v2 _ (by linarith) (by linarith) (by linarith)]
      linarith
    · have hu0 : u = 0 := by
        rcases hui with h | h | h
        · exact h
        · exfalso; linarith
        · exfalso; linarith
      subst hu0
      rw [hue_eval_b3 v1 v2 _ (by norm_num) (by norm_num) (by norm_num) (by norm_num)]
      nlinarith []

theorem lb_greenmax_green (v1 v2 u : ℚ) (h2 : 0 ≤ v2) (h21 : v2 ≤ v1) (h11 : v1 ≤ 1)
    (hulo : -1 ≤ u) (huhi : u ≤ 1) :
    -1 < 255 * hue_to_rgb v1 v2 ((u + 2) / 6) := by
  have := hue_ge_right v1 v2 ((u + 2) / 6) h21 (by linarith) (by linarith)
  linarith

theorem lb_greenmax_blue (v1 v2 u : ℚ) (h2 : 0 ≤ v2) (h21 : v2 ≤ v1) (h11 : v1 ≤ 1)
    (hulo : -1 ≤ u) (huhi : u ≤ 1) :
    -1 < 255 * hue_to_rgb v1 v2 ((u + 2) / 6 - 333/1000) := by
  by_cases hwrap : (u + 2) / 6 - 333/1000 < 0
  · rw [hue_wrap_lo v1 v2 _ hwrap (by linarith)]
    rw [hue_eval_b4 v1 v2 _ (by linarith) (by linarith) (by linarith)]
    linarith
  · push_neg at hwrap
    have := hue_ge_right v1 v2 ((u + 2) / 6 - 333/1000) h21 hwrap (by linarith)
    linarith

theorem lb_bluemax_red (v1 v2 w : ℚ) (h2 : 0 ≤ v2) (h21 : v2 ≤ v1) (h11 : v1 ≤ 1)
    (hwlo : -1 ≤ w) (hwhi : w ≤ 1) :
    -1 < 255 * hue_to_rgb v1 v2 ((w + 4) / 6 + 333/1000) := by
  by_cases hwrap : 1 < (w + 4) / 6 + 333/1000
  · rw [hue_wrap_hi v1 v2 _ hwrap (by linarith)]
    have := hue_ge_right v1 v2 ((w + 4) / 6 + 333/1000 - 1) h21 (by linarith) (by linarith)
    linarith
  · push_neg at hwrap
    rw [hue_eval_b4 v1 v2 _ (by linarith) hwrap (by linarith)]
    linarith

theorem lb_bluemax_green (v1 v2 w : ℚ) (h2 : 0 ≤ v2) (h21 : v2 ≤ v1) (h11 : v1 ≤ 1)
    (hwlo : -1 ≤ w) (hwhi : w ≤ 1)
    (hwi : w = 0 ∨ w ≤ -1/255 ∨ 1/255 ≤ w) :
    -1 < 255 * hue_to_rgb v1 v2 ((w + 4) / 6) := by
  rcases le_or_lt ((w + 4) / 6) (666/1000) with hsml | hbig
  · have := hue_ge_right v1 v2 ((w + 4) / 6) h21 (by linarith) hsml
    linarith
  · rcases le_or_lt (2/3) ((w + 4) / 6) with hb4 | hb3
    · rw [hue_eval_b4 v1 v2 _ (by linarith) (by linarith) (by linarith)]
      linarith
    · rw [hue_eval_b3 v1 v2 _ (by linarith) (by linarith) (by linarith) (by linarith)]
      have hw255 : w ≤ -1/255 := by
        rcases hwi with h | h | h
        · exfalso
          rw [h] at hb3
          norm_num at hb3
        · exact h
        · exfalso; linarith
      nlinarith [mul_le_mul_of_nonneg_left hw255 (by linarith : (0:ℚ) ≤ v1 - v2)]

theorem lb_bluemax_blue (v1 v2 w : ℚ) (h2 : 0 ≤ v2) (h21 : v2 ≤ v1) (h11 : v1 ≤ 1)
    (hwlo : -1 ≤ w) (hwhi : w ≤ 1) :
    -1 < 255 * hue_to_rgb v1 v2 ((w + 4) / 6 - 333/1000) := by
  have := hue_ge_right v1 v2 ((w + 4) / 6 - 333/1000) h21 (by linarith) (by linarith)
  linarith

end Lightener
namespace Lightener

theorem rgb_to_hsl_eq (r g b : ℕ) :
    rgb_to_hsl r g b = (hueOf r g b, satOf r g b * 100, lightOf r g b * 100) := rfl

theorem hsl_to_rgb_core (h s l : ℚ) :
    hsl_to_rgb h (s * 100) (l * 100) =
      (⌈255 * hue_to_rgb (if l < 1/2 then l * (1 + s) else (l + s) - l * s)
          (2 * l - (if l < 1/2 then l * (1 + s) else (l + s) - l * s))
          (h / 360 + 333/1000)⌉,
       ⌈255 * hue_to_rgb (if l < 1/2 then l * (1 + s) else (l + s) - l * s)
          (2 * l - (if l < 1/2 then l * (1 + s) else (l + s) - l * s))
          (h / 360)⌉,
       ⌈255 * hue_to_rgb (if l < 1/2 then l * (1 + s) else (l + s) - l * s)
          (2 * l - (if l < 1/2 then l * (1 + s) else (l + s) - l * s))
          (h / 360 - 333/1000)⌉) := by
  unfold hsl_to_rgb
  have e1 : s * 100 / 100 = s := by ring
  have e2 : l * 100 / 100 = l := by ring
  rw [e1, e2]

end Lightener
namespace Lightener

theorem quantized_ratio (p q : ℕ) (d : ℚ) (hd : 0 < d) (hd1 : d ≤ 1) :
    (chan p - chan q) / d = 0 ∨ (chan p - chan q) / d ≤ -1/255 ∨
      1/255 ≤ (chan p - chan q) / d := by
  by_cases hpq : p = q
  · left
    rw [hpq, sub_self, zero_div]
  · have ht : (chan p - chan q) / d * d = chan p - chan q :=
      div_mul_cancel₀ _ (ne_of_gt hd)
    rcases Nat.lt_or_ge p q with h | h
    · right; left
      have hc : (p:ℚ) + 1 ≤ (q:ℚ) := by exact_mod_cast Nat.succ_le_of_lt h
      have h2 : chan p - chan q ≤ -1/255 := by unfold chan; linarith
      have htneg : (chan p - chan q) / d < 0 := div_neg_of_neg_of_pos (by linarith) hd
      nlinarith [mul_nonpos_of_nonpos_of_nonneg (le_of_lt htneg)
        (by linarith : (0:ℚ) ≤ 1 - d), ht]
    · right; right
      have hlt : q < p := lt_of_le_of_ne h (Ne.symm hpq)
      have hc : (q:ℚ) + 1 ≤ (p:ℚ) := by exact_mod_cast Nat.succ_le_of_lt hlt
      have h2 : 1/255 ≤ chan p - chan q := by unfold chan; linarith
      have htpos : 0 < (chan p - chan q) / d := div_pos (by linarith) hd
      nlinarith [mul_nonneg (le_of_lt htpos) (by linarith : (0:ℚ) ≤ 1 - d), ht]

theorem round_trip_channels (r g b : ℕ) (hr : r ≤ 255) (hg : g ≤ 255) (hb : b ≤ 255) :
    (0 ≤ (hsl_to_rgb (rgb_to_hsl r g b).1 (rgb_to_hsl r g b).2.1 (rgb_to_hsl r g b).2.2).1 ∧
     (hsl_to_rgb (rgb_to_hsl r g b).1 (rgb_to_hsl r g b).2.1 (rgb_to_hsl r g b).2.2).1 ≤ 255 ∧
     |(hsl_to_rgb (rgb_to_hsl r g b).1 (rgb_to_hsl r g b).2.1 (rgb_to_hsl r g b).2.2).1 - (r : ℤ)| ≤ 1) ∧
    (0 ≤ (hsl_to_rgb (rgb_to_hsl r g b).1 (rgb_to_hsl r g b).2.1 (rgb_to_hsl r g b).2.2).2.1 ∧
     (hsl_to_rgb (rgb_to_hsl r g b).1 (rgb_to_hsl r g b).2.1 (rgb_to_hsl r g b).2.2).2.1 ≤ 255 ∧
     |(hsl_to_rgb (rgb_to_hsl r g b).1 (rgb_to_hsl r g b).2.1 (rgb_to_hsl r g b).2.2).2.1 - (g : ℤ)| ≤ 1) ∧
    (0 ≤ (hsl_to_rgb (rgb_to_hsl r g b).1 (rgb_to_hsl r g b).2.1 (rgb_to_hsl r g b).2.2).2.2 ∧
     (hsl_to_rgb (rgb_to_hsl r g b).1 (rgb_to_hsl r g b).2.1 (rgb_to_hsl r g b).2.2).2.2 ≤ 255 ∧
     |(hsl_to_rgb (rgb_to_hsl r g b).1 (rgb_to_hsl r g b).2.1 (rgb_to_hsl r g b).2.2).2.2 - (b : ℤ)| ≤ 1) := by
  simp only [rgb_to_hsl_eq, hsl_to_rgb_core]
  have hr0 : 0 ≤ chan r := by unfold chan; positivity
  have hg0 : 0 ≤ chan g := by unfold chan; positivity
  have hb0 : 0 ≤ chan b := by unfold chan; positivity
  have hr1 : chan r ≤ 1 := by
    unfold chan; rw [div_le_one (by norm_num : (0:ℚ) < 255)]; exact_mod_cast hr
  have hg1 : chan g ≤ 1 := by
    unfold chan; rw [div_le_one (by norm_num : (0:ℚ) < 255)]; exact_mod_cast hg
  have hb1 : chan b ≤ 1 := by
    unfold chan; rw [div_le_one (by norm_num : (0:ℚ) < 255)]; exact_mod_cast hb
  have hRM : chan r ≤ cmaxOf r g b := le_max_left _ _
  have hGM : chan g ≤ cmaxOf r g b := le_trans (le_max_left _ _) (le_max_right _ _)
  have hBM : chan b ≤ cmaxOf r g b := le_trans (le_max_right _ _) (le_max_right _ _)
  have hmR : cminOf r g b ≤ chan r := min_le_left _ _
  have hmG : cminOf r g b ≤ chan g := le_trans (min_le_right _ _) (min_le_left _ _)
  have hmB : cminOf r g b ≤ chan b := le_trans (min_le_right _ _) (min_le_right _ _)
  have hm0 : 0 ≤ cminOf r g b := le_min hr0 (le_min hg0 hb0)
  have hM1 : cmaxOf r g b ≤ 1 := max_le hr1 (max_le hg1 hb1)
  have hmM : cminOf r g b ≤ cmaxOf r g b := le_trans hmR hRM
  by_cases hd0 : deltaOf r g b = 0
  · -- achromatic: all three channels coincide and the pipeline is exact
    have heq : cmaxOf r g b = cminOf r g b := by
      unfold deltaOf at hd0; linarith
    have hSat : satOf r g b = 0 := by unfold satOf; rw [if_pos hd0]
    have hHue : hueOf r g b = 0 := by
      unfold hueOf
      simp [hd0]
    rw [hSat, hHue]
    have hvar : (if lightOf r g b < 1/2 then lightOf r g b * (1 + 0)
        else (lightOf r g b + 0) - lightOf r g b * 0) = lightOf r g b := by
      split_ifs <;> ring
    rw [hvar]
    have hvar2 : 2 * lightOf r g b - lightOf r g b = lightOf r g b := by ring
    rw [hvar2]
    simp only [hue_to_rgb_const]
    have hcR : cmaxOf r g b = chan r := le_antisymm (by rw [heq]; exact hmR) hRM
    have hcG : cmaxOf r g b = chan g := le_antisymm (by rw [heq]; exact hmG) hGM
    have hcB : cmaxOf r g b = chan b := le_antisymm (by rw [heq]; exact hmB) hBM
    have hrg : r = g := by
      have h := hcR.symm.trans hcG
      unfold chan at h
      field_simp at h
      exact h
    have hrb : r = b := by
      have h := hcR.symm.trans hcB
      unfold chan at h
      field_simp at h
      exact h
    have hLr : 255 * lightOf r g b = (r:ℚ) := by
      unfold lightOf
      rw [← heq, hcR]
      unfold chan
      field_simp
      ring
    rw [hLr, Int.ceil_natCast]
    subst hrg
    subst hrb
    refine ⟨⟨by positivity, by exact_mod_cast hr, by simp⟩,
      ⟨by positivity, by exact_mod_cast hr, by simp⟩,
      ⟨by positivity, by exact_mod_cast hr, by simp⟩⟩
  · -- chromatic case
    have hd : 0 < deltaOf r g b := by
      rcases lt_or_eq_of_le (by unfold deltaOf; linarith : (0:ℚ) ≤ deltaOf r g b) with h | h
      · exact h
      · exact absurd h.symm hd0
    have hlt : cminOf r g b < cmaxOf r g b := by
      unfold deltaOf at hd; linarith
    have hd1 : deltaOf r g b ≤ 1 := by unfold deltaOf; linarith
    have hsat : satOf r g b =
        (cmaxOf r g b - cminOf r g b) / (1 - |2 * lightOf r g b - 1|) := by
      unfold satOf
      rw [if_neg hd0]
      rfl
    have hvar1 : (if lightOf r g b < 1/2 then lightOf r g b * (1 + satOf r g b)
        else (lightOf r g b + satOf r g b) - lightOf r g b * satOf r g b) =
        cmaxOf r g b :=
      var1_eq (cminOf r g b) (cmaxOf r g b) (lightOf r g b) (satOf r g b)
        hm0 hlt hM1 rfl hsat
    rw [hvar1]
    have hvar2 : 2 * lightOf r g b - cmaxOf r g b = cminOf r g b := by
      unfold lightOf; ring
    rw [hvar2]
    have hkey : ∀ (q : ℚ) (n : ℕ), n ≤ 255 → near1 q (chan n) → -1 < 255 * q →
        255 * q ≤ 255 →
        0 ≤ ⌈255 * q⌉ ∧ ⌈255 * q⌉ ≤ 255 ∧ |⌈255 * q⌉ - (n:ℤ)| ≤ 1 := by
      intro q n hn hnear hlb hup
      obtain ⟨hlo, hhi⟩ := hnear
      have hcn : 255 * chan n = (n : ℚ) := by unfold chan; field_simp
      have h1 : 0 ≤ ⌈255 * q⌉ := by
        have : (-1 : ℤ) < ⌈255 * q⌉ := Int.lt_ceil.mpr (by push_cast; linarith)
        omega
      have h2 : ⌈255 * q⌉ ≤ 255 := Int.ceil_le.mpr (by push_cast; linarith)
      have h3 := ceil_close (255 * q) (n : ℤ) (by push_cast; linarith) (by push_cast; linarith)
      exact ⟨h1, h2, by rw [abs_le]; omega⟩
    by_cases hcr : cmaxOf r g b = chan r
    · -- red-max branch
      have hHue : hueOf r g b = 60 * pymod ((chan g - chan b) / deltaOf r g b) 6 := by
        unfold hueOf
        rw [if_pos ⟨hcr, hd⟩]
      rw [hHue]
      have h360 : 60 * pymod ((chan g - chan b) / deltaOf r g b) 6 / 360 =
          pymod ((chan g - chan b) / deltaOf r g b) 6 / 6 := by ring
      rw [h360]
      set t := (chan g - chan b) / deltaOf r g b with htdef
      have hdelta : deltaOf r g b = cmaxOf r g b - cminOf r g b := rfl
      have ht : t * (cmaxOf r g b - cminOf r g b) = chan g - chan b := by
        rw [htdef, ← hdelta]
        exact div_mul_cancel₀ _ (ne_of_gt hd)
      have hthi : t ≤ 1 := by
        rw [htdef, div_le_one hd, hdelta]
        linarith
      have htlo : -1 ≤ t := by
        rw [htdef, le_div_iff₀ hd, hdelta]
        linarith
      have hminGB : cminOf r g b = min (chan g) (chan b) := by
        unfold cminOf
        apply min_eq_right
        calc min (chan g) (chan b) ≤ chan g := min_le_left _ _
          _ ≤ cmaxOf r g b := hGM
          _ = chan r := hcr
      have hmin : chan g = cminOf r g b ∨ chan b = cminOf r g b := by
        rcases min_choice (chan g) (chan b) with h | h
        · left; rw [hminGB, h]
        · right; rw [hminGB, h]
      have hti : t = 0 ∨ t ≤ -1/255 ∨ 1/255 ≤ t := by
        rw [htdef]
        exact quantized_ratio g b (deltaOf r g b) hd hd1
      have hpb := pymod_six_bounds t
      refine ⟨?_, ?_, ?_⟩
      · apply hkey _ r hr
        · rw [← hcr]
          exact redmax_red (cminOf r g b) (cmaxOf r g b) (chan g) (chan b) t
            hm0 hlt hM1 hmG hGM hmB hBM ht htlo hthi
        · exact lb_redmax_red (cmaxOf r g b) (cminOf r g b) t hm0 hmM hM1 htlo hthi
        · have := hue_le_left (cmaxOf r g b) (cminOf r g b)
            (pymod t 6 / 6 + 333/1000) hmM (by linarith) (by linarith)
          linarith
      · apply hkey _ g hg
        · exact redmax_green (cminOf r g b) (cmaxOf r g b) (chan g) (chan b) t
            hm0 hlt hM1 hmG hGM hmB hBM hmin ht htlo hthi
        · exact lb_redmax_green (cmaxOf r g b) (cminOf r g b) t hm0 hmM hM1 htlo hthi
        · have := hue_le_left (cmaxOf r g b) (cminOf r g b)
            (pymod t 6 / 6) hmM (by linarith) (by linarith)
          linarith
      · apply hkey _ b hb
        · exact redmax_blue (cminOf r g b) (cmaxOf r g b) (chan g) (chan b) t
            hm0 hlt hM1 hmG hGM hmB hBM hmin ht htlo hthi
        · exact lb_redmax_blue (cmaxOf r g b) (cminOf r g b) t hm0 hmM hM1 htlo hthi hti
        · have := hue_le_left (cmaxOf r g b) (cminOf r g b)
            (pymod t 6 / 6 - 333/1000) hmM (by linarith) (by linarith)
          linarith
    · by_cases hcg : cmaxOf r g b = chan g
      · -- green-max branch
        have hHue : hueOf r g b = 60 * ((chan b - chan r) / deltaOf r g b + 2) := by
          unfold hueOf
          rw [if_neg (fun h => hcr h.1), if_pos ⟨hcg, hd⟩]
        rw [hHue]
        have h360 : 60 * ((chan b - chan r) / deltaOf r g b + 2) / 360 =
            ((chan b - chan r) / deltaOf r g b + 2) / 6 := by ring
        rw [h360]
        set u := (chan b - chan r) / deltaOf r g b with hudef
        have hdelta : deltaOf r g b = cmaxOf r g b - cminOf r g b := rfl
        have hu : u * (cmaxOf r g b - cminOf r g b) = chan b - chan r := by
          rw [hudef, ← hdelta]
          exact div_mul_cancel₀ _ (ne_of_gt hd)
        have huhi : u ≤ 1 := by
          rw [hudef, div_le_one hd, hdelta]
          linarith
        have hulo : -1 ≤ u := by
          rw [hudef, le_div_iff₀ hd, hdelta]
          linarith
        have hRltM : chan r < cmaxOf r g b :=
          lt_of_le_of_ne hRM (fun hh => hcr hh.symm)
        have hmin : chan r = cminOf r g b ∨ chan b = cminOf r g b := by
          rcases min_choice (chan r) (min (chan g) (chan b)) with h | h
          · left
            unfold cminOf
            rw [h]
          · rcases min_choice (chan g) (chan b) with h2 | h2
            · exfalso
              have hgmin : cminOf r g b = chan g := by
                unfold cminOf
                rw [h, h2]
              have : cmaxOf r g b ≤ chan r := by
                rw [hcg]
                calc chan g = cminOf r g b := hgmin.symm
                  _ ≤ chan r := hmR
              exact hcr (le_antisymm this hRM)
            · right
              unfold cminOf
              rw [h, h2]
        have hui : u = 0 ∨ u ≤ -1/255 ∨ 1/255 ≤ u := by
          rw [hudef]
          exact quantized_ratio b r (deltaOf r g b) hd hd1
        refine ⟨?_, ?_, ?_⟩
        · apply hkey _ r hr
          · exact greenmax_red (cminOf r g b) (cmaxOf r g b) (chan r) (chan b) u
              hm0 hlt hM1 hmR hRltM hmB hBM hmin hu hulo huhi
          · exact lb_greenmax_red (cmaxOf r g b) (cminOf r g b) u hm0 hmM hM1 hulo huhi hui
          · have := hue_le_left (cmaxOf r g b) (cminOf r g b)
              ((u + 2) / 6 + 333/1000) hmM (by linarith) (by linarith)
            linarith
        · apply hkey _ g hg
          · rw [← hcg]
            exact greenmax_green (cminOf r g b) (cmaxOf r g b) (chan r) (chan b) u
              hm0 hlt hM1 hmR hRltM hmB hBM hu hulo huhi
          · exact lb_greenmax_green (cmaxOf r g b) (cminOf r g b) u hm0 hmM hM1 hulo huhi
          · have := hue_le_left (cmaxOf r g b) (cminOf r g b)
              ((u + 2) / 6) hmM (by linarith) (by linarith)
            linarith
        · apply hkey _ b hb
          · exact greenmax_blue (cminOf r g b) (cmaxOf r g b) (chan r) (chan b) u
              hm0 hlt hM1 hmR hRltM hmB hBM hmin hu hulo huhi
          · exact lb_greenmax_blue (cmaxOf r g b) (cminOf r g b) u hm0 hmM hM1 hulo huhi
          · have := hue_le_left (cmaxOf r g b) (cminOf r g b)
              ((u + 2) / 6 - 333/1000) hmM (by linarith) (by linarith)
            linarith
      · -- blue-max branch
        have hcb : cmaxOf r g b = chan b := by
          rcases max_choice (chan r) (max (chan g) (chan b)) with h | h
          · exact absurd h hcr
          · rcases max_choice (chan g) (chan b) with h2 | h2
            · exfalso
              apply hcg
              unfold cmaxOf
              rw [h, h2]
            · unfold cmaxOf
              rw [h, h2]
        have hHue : hueOf r g b = 60 * ((chan r - chan g) / deltaOf r g b + 4) := by
          unfold hueOf
          rw [if_neg (fun h => hcr h.1), if_neg (fun h => hcg h.1), if_pos ⟨hcb, hd⟩]
        rw [hHue]
        have h360 : 60 * ((chan r - chan g) / deltaOf r g b + 4) / 360 =
            ((chan r - chan g) / deltaOf r g b + 4) / 6 := by ring
        rw [h360]
        set w := (chan r - chan g) / deltaOf r g b with hwdef
        have hdelta : deltaOf r g b = cmaxOf r g b - cminOf r g b := rfl
        have hw : w * (cmaxOf r g b - cminOf r g b) = chan r - chan g := by
          rw [hwdef, ← hdelta]
          exact div_mul_cancel₀ _ (ne_of_gt hd)
        have hwhi : w ≤ 1 := by
          rw [hwdef, div_le_one hd, hdelta]
          linarith
        have hwlo : -1 ≤ w := by
          rw [hwdef, le_div_iff₀ hd, hdelta]
          linarith
        have hRltM : chan r < cmaxOf r g b :=
          lt_of_le_of_ne hRM (fun hh => hcr hh.symm)
        have hGltM : chan g < cmaxOf r g b :=
          lt_of_le_of_ne hGM (fun hh => hcg hh.symm)
        have hmin : chan r = cminOf r g b ∨ chan g = cminOf r g b := by
          rcases min_choice (chan r) (min (chan g) (chan b)) with h | h
          · left
            unfold cminOf
            rw [h]
          · rcases min_choice (chan g) (chan b) with h2 | h2
            · right
              unfold cminOf
              rw [h, h2]
            · exfalso
              have hbmin : cminOf r g b = chan b := by
                unfold cminOf
                rw [h, h2]
              have : cmaxOf r g b ≤ chan r := by
                rw [hcb]
                calc chan b = cminOf r g b := hbmin.symm
                  _ ≤ chan r := hmR
              exact hcr (le_antisymm this hRM)
        have hwi : w = 0 ∨ w ≤ -1/255 ∨ 1/255 ≤ w := by
          rw [hwdef]
          exact quantized_ratio r g (deltaOf r g b) hd hd1
        refine ⟨?_, ?_, ?_⟩
        · apply hkey _ r hr
          · exact bluemax_red (cminOf r g b) (cmaxOf r g b) (chan r) (chan g) w
              hm0 hlt hM1 hmR hRltM hmG hGltM hmin hw hwlo hwhi
          · exact lb_bluemax_red (cmaxOf r g b) (cminOf r g b) w hm0 hmM hM1 hwlo hwhi
          · have := hue_le_left (cmaxOf r g b) (cminOf r g b)
              ((w + 4) / 6 + 333/1000) hmM (by linarith) (by linarith)
            linarith
        · apply hkey _ g hg
          · exact bluemax_green (cminOf r g b) (cmaxOf r g b) (chan r) (chan g) w
              hm0 hlt hM1 hmR hRltM hmG hGltM hmin hw hwlo hwhi
          · exact lb_bluemax_green (cmaxOf r g b) (cminOf r g b) w hm0 hmM hM1 hwlo hwhi hwi
          · have := hue_le_left (cmaxOf r g b) (cminOf r g b)
              ((w + 4) / 6) hmM (by linarith) (by linarith)
            linarith
        · apply hkey _ b hb
          · rw [← hcb]
            exact bluemax_blue (cminOf r g b) (cmaxOf r g b) (chan r) (chan g) w
              hm0 hlt hM1 hmR hRltM hmG hGltM hw hwlo hwhi
          · exact lb_bluemax_blue (cmaxOf r g b) (cminOf r g b) w hm0 hmM hM1 hwlo hwhi
          · have := hue_le_left (cmaxOf r g b) (cminOf r g b)
              ((w + 4) / 6 - 333/1000) hmM (by linarith) (by linarith)
            linarith

end Lightener
namespace Lightener
set_option maxRecDepth 8000

theorem hexDigitVal_le (c : Char) (h : isHexDigit c = true) : hexDigitVal c ≤ 15 := by
  unfold isHexDigit at h
  rw [decide_eq_true_eq] at h
  unfold hexDigitVal
  split_ifs <;> omega

theorem hexPair_le (c1 c2 : Char) (h1 : isHexDigit c1 = true)
    (h2 : isHexDigit c2 = true) : hexPair c1 c2 ≤ 255 := by
  have := hexDigitVal_le c1 h1
  have := hexDigitVal_le c2 h2
  unfold hexPair
  omega

theorem pyHex2_eq : ∀ n : ℕ, n < 256 →
    pyHex2 (n : ℤ) = [hexDigitChar (n / 16), hexDigitChar (n % 16)] := by decide

theorem hexPair_digitChar : ∀ n : ℕ, n < 256 →
    hexPair (hexDigitChar (n / 16)) (hexDigitChar (n % 16)) = n := by decide

theorem hexDigitChar_hex : ∀ n : ℕ, n < 16 → isHexDigit (hexDigitChar n) = true := by
  decide

theorem hex_to_rgb_concat (x y z : ℕ) (hx : x < 256) (hy : y < 256) (hz : z < 256) :
    hex_to_rgb (pyHex2 (x : ℤ) ++ pyHex2 (y : ℤ) ++ pyHex2 (z : ℤ)) = (x, y, z) := by
  rw [pyHex2_eq x hx, pyHex2_eq y hy, pyHex2_eq z hz]
  show (hexPair (hexDigitChar (x / 16)) (hexDigitChar (x % 16)),
        hexPair (hexDigitChar (y / 16)) (hexDigitChar (y % 16)),
        hexPair (hexDigitChar (z / 16)) (hexDigitChar (z % 16))) = _
  rw [hexPair_digitChar x hx, hexPair_digitChar y hy, hexPair_digitChar z hz]

end Lightener
namespace Lightener

/-- C1: for every valid 6-digit lowercase hex string, converting it to HSL and
back (`rgbToHex(hslToRgb(rgbToHsl(hexToRgb(x))))`, i.e.
`hsl_to_hex (hex_to_hsl s)`) yields a hex string whose three decoded channels
each differ from the corresponding channel of the input by at most 1. -/
theorem hex_round_trip (s : List Char) (hlen : s.length = 6)
    (hhex : ∀ c ∈ s, isHexDigit c = true) :
    |((hex_to_rgb (hsl_to_hex (hex_to_hsl s))).1 : ℤ) - ((hex_to_rgb s).1 : ℤ)| ≤ 1 ∧
    |((hex_to_rgb (hsl_to_hex (hex_to_hsl s))).2.1 : ℤ) - ((hex_to_rgb s).2.1 : ℤ)| ≤ 1 ∧
    |((hex_to_rgb (hsl_to_hex (hex_to_hsl s))).2.2 : ℤ) - ((hex_to_rgb s).2.2 : ℤ)| ≤ 1 := by
  rcases s with _ | ⟨c1, _ | ⟨c2, _ | ⟨c3, _ | ⟨c4, _ | ⟨c5, _ | ⟨c6, rest⟩⟩⟩⟩⟩⟩ <;>
    simp only [List.length_cons, List.length_nil] at hlen
  · omega
  · omega
  · omega
  · omega
  · omega
  · omega
  have hrest : rest = [] := List.length_eq_zero.mp (by omega)
  subst hrest
  simp only [List.mem_cons, forall_eq_or_imp, List.not_mem_nil, false_implies,
    implies_true, and_true] at hhex
  obtain ⟨h1, h2, h3, h4, h5, h6⟩ := hhex
  have hx : hexPair c1 c2 ≤ 255 := hexPair_le c1 c2 h1 h2
  have hy : hexPair c3 c4 ≤ 255 := hexPair_le c3 c4 h3 h4
  have hz : hexPair c5 c6 ≤ 255 := hexPair_le c5 c6 h5 h6
  show
    |((hex_to_rgb (pyHex2 (hsl_to_rgb (rgb_to_hsl (hexPair c1 c2) (hexPair c3 c4) (hexPair c5 c6)).1
          (rgb_to_hsl (hexPair c1 c2) (hexPair c3 c4) (hexPair c5 c6)).2.1
          (rgb_to_hsl (hexPair c1 c2) (hexPair c3 c4) (hexPair c5 c6)).2.2).1 ++
        pyHex2 (hsl_to_rgb (rgb_to_hsl (hexPair c1 c2) (hexPair c3 c4) (hexPair c5 c6)).1
          (rgb_to_hsl (hexPair c1 c2) (hexPair c3 c4) (hexPair c5 c6)).2.1
          (rgb_to_hsl (hexPair c1 c2) (hexPair c3 c4) (hexPair c5 c6)).2.2).2.1 ++
        pyHex2 (hsl_to_rgb (rgb_to_hsl (hexPair c1 c2) (hexPair c3 c4) (hexPair c5 c6)).1
          (rgb_to_hsl (hexPair c1 c2) (hexPair c3 c4) (hexPair c5 c6)).2.1
          (rgb_to_hsl (hexPair c1 c2) (hexPair c3 c4) (hexPair c5 c6)).2.2).2.2)).1 : ℤ) -
      ((hexPair c1 c2 : ℕ) : ℤ)| ≤ 1 ∧
    |((hex_to_rgb (pyHex2 (hsl_to_rgb (rgb_to_hsl (hexPair c1 c2) (hexPair c3 c4) (hexPair c5 c6)).1
          (rgb_to_hsl (hexPair c1 c2) (hexPair c3 c4) (hexPair c5 c6)).2.1
          (rgb_to_hsl (hexPair c1 c2) (hexPair c3 c4) (hexPair c5 c6)).2.2).1 ++
        pyHex2 (hsl_to_rgb (rgb_to_hsl (hexPair c1 c2) (hexPair c3 c4) (hexPair c5 c6)).1
          (rgb_to_hsl (hexPair c1 c2) (hexPair c3 c4) (hexPair c5 c6)).2.1
          (rgb_to_hsl (hexPair c1 c2) (hexPair c3 c4) (hexPair c5 c6)).2.2).2.1 ++
        pyHex2 (hsl_to_rgb (rgb_to_hsl (hexPair c1 c2) (hexPair c3 c4) (hexPair c5 c6)).1
          (rgb_to_hsl (hexPair c1 c2) (hexPair c3 c4) (hexPair c5 c6)).2.1
          (rgb_to_hsl (hexPair c1 c2) (hexPair c3 c4) (hexPair c5 c6)).2.2).2.2)).2.1 : ℤ) -
      ((hexPair c3 c4 : ℕ) : ℤ)| ≤ 1 ∧
    |((hex_to_rgb (pyHex2 (hsl_to_rgb (rgb_to_hsl (hexPair c1 c2) (hexPair c3 c4) (hexPair c5 c6)).1
          (rgb_to_hsl (hexPair c1 c2) (hexPair c3 c4) (hexPair c5 c6)).2.1
          (rgb_to_hsl (hexPair c1 c2) (hexPair c3 c4) (hexPair c5 c6)).2.2).1 ++
        pyHex2 (hsl_to_rgb (rgb_to_hsl (hexPair c1 c2) (hexPair c3 c4) (hexPair c5 c6)).1
          (rgb_to_hsl (hexPair c1 c2) (hexPair c3 c4) (hexPair c5 c6)).2.1
          (rgb_to_hsl (hexPair c1 c2) (hexPair c3 c4) (hexPair c5 c6)).2.2).2.1 ++
        pyHex2 (hsl_to_rgb (rgb_to_hsl (hexPair c1 c2) (hexPair c3 c4) (hexPair c5 c6)).1
          (rgb_to_hsl (hexPair c1 c2) (hexPair c3 c4) (hexPair c5 c6)).2.1
          (rgb_to_hsl (hexPair c1 c2) (hexPair c3 c4) (hexPair c5 c6)).2.2).2.2)).2.2 : ℤ) -
      ((hexPair c5 c6 : ℕ) : ℤ)| ≤ 1
  obtain ⟨⟨h10, h1255, h1d⟩, ⟨h20, h2255, h2d⟩, ⟨h30, h3255, h3d⟩⟩ :=
    round_trip_channels (hexPair c1 c2) (hexPair c3 c4) (hexPair c5 c6) hx hy hz
  have hdec := hex_to_rgb_concat
    (hsl_to_rgb (rgb_to_hsl (hexPair c1 c2) (hexPair c3 c4) (hexPair c5 c6)).1
      (rgb_to_hsl (hexPair c1 c2) (hexPair c3 c4) (hexPair c5 c6)).2.1
      (rgb_to_hsl (hexPair c1 c2) (hexPair c3 c4) (hexPair c5 c6)).2.2).1.toNat
    (hsl_to_rgb (rgb_to_hsl (hexPair c1 c2) (hexPair c3 c4) (hexPair c5 c6)).1
      (rgb_to_hsl (hexPair c1 c2) (hexPair c3 c4) (hexPair c5 c6)).2.1
      (rgb_to_hsl (hexPair c1 c2) (hexPair c3 c4) (hexPair c5 c6)).2.2).2.1.toNat
    (hsl_to_rgb (rgb_to_hsl (hexPair c1 c2) (hexPair c3 c4) (hexPair c5 c6)).1
      (rgb_to_hsl (hexPair c1 c2) (hexPair c3 c4) (hexPair c5 c6)).2.1
      (rgb_to_hsl (hexPair c1 c2) (hexPair c3 c4) (hexPair c5 c6)).2.2).2.2.toNat
    (by omega) (by omega) (by omega)
  rw [Int.toNat_of_nonneg h10, Int.toNat_of_nonneg h20, Int.toNat_of_nonneg h30] at hdec
  rw [hdec]
  refine ⟨?_, ?_, ?_⟩
  · rw [Int.toNat_of_nonneg h10]
    exact h1d
  · rw [Int.toNat_of_nonneg h20]
    exact h2d
  · rw [Int.toNat_of_nonneg h30]
    exact h3d

end Lightener
namespace Lightener

theorem var_bounds (s l : ℚ) (hs0 : 0 ≤ s) (hs1 : s ≤ 1) (hl0 : 0 ≤ l) (hl1 : l ≤ 1) :
    0 ≤ 2 * l - (if l < 1/2 then l * (1 + s) else (l + s) - l * s) ∧
    2 * l - (if l < 1/2 then l * (1 + s) else (l + s) - l * s) ≤
      (if l < 1/2 then l * (1 + s) else (l + s) - l * s) ∧
    (if l < 1/2 then l * (1 + s) else (l + s) - l * s) ≤ 1 := by
  split_ifs with h
  · exact ⟨by nlinarith, by nlinarith, by nlinarith⟩
  · push_neg at h
    exact ⟨by nlinarith, by nlinarith, by nlinarith⟩

theorem lb_hue_all (r g b : ℕ) (hr : r ≤ 255) (hg : g ≤ 255) (hb : b ≤ 255)
    (v1 v2 : ℚ) (h20 : 0 ≤ v2) (h21 : v2 ≤ v1) (h11 : v1 ≤ 1) :
    -1 < 255 * hue_to_rgb v1 v2 (hueOf r g b / 360 + 333/1000) ∧
    -1 < 255 * hue_to_rgb v1 v2 (hueOf r g b / 360) ∧
    -1 < 255 * hue_to_rgb v1 v2 (hueOf r g b / 360 - 333/1000) := by
  have hr0 : 0 ≤ chan r := by unfold chan; positivity
  have hg0 : 0 ≤ chan g := by unfold chan; positivity
  have hb0 : 0 ≤ chan b := by unfold chan; positivity
  have hr1 : chan r ≤ 1 := by
    unfold chan; rw [div_le_one (by norm_num : (0:ℚ) < 255)]; exact_mod_cast hr
  have hg1 : chan g ≤ 1 := by
    unfold chan; rw [div_le_one (by norm_num : (0:ℚ) < 255)]; exact_mod_cast hg
  have hb1 : chan b ≤ 1 := by
    unfold chan; rw [div_le_one (by norm_num : (0:ℚ) < 255)]; exact_mod_cast hb
  have hRM : chan r ≤ cmaxOf r g b := le_max_left _ _
  have hGM : chan g ≤ cmaxOf r g b := le_trans (le_max_left _ _) (le_max_right _ _)
  have hBM : chan b ≤ cmaxOf r g b := le_trans (le_max_right _ _) (le_max_right _ _)
  have hmR : cminOf r g b ≤ chan r := min_le_left _ _
  have hmG : cminOf r g b ≤ chan g := le_trans (min_le_right _ _) (min_le_left _ _)
  have hmB : cminOf r g b ≤ chan b := le_trans (min_le_right _ _) (min_le_right _ _)
  have hm0 : 0 ≤ cminOf r g b := le_min hr0 (le_min hg0 hb0)
  have hM1 : cmaxOf r g b ≤ 1 := max_le hr1 (max_le hg1 hb1)
  have hmM : cminOf r g b ≤ cmaxOf r g b := le_trans hmR hRM
  by_cases hd0 : deltaOf r g b = 0
  · have hHue : hueOf r g b = 0 := by
      unfold hueOf
      simp [hd0]
    rw [hHue]
    refine ⟨?_, ?_, ?_⟩
    · have := hue_ge_right v1 v2 ((0:ℚ)/360 + 333/1000) h21 (by norm_num) (by norm_num)
      linarith
    · have := hue_ge_right v1 v2 ((0:ℚ)/360) h21 (by norm_num) (by norm_num)
      linarith
    · rw [hue_wrap_lo v1 v2 _ (by norm_num) (by norm_num)]
      rw [hue_eval_b4 v1 v2 _ (by norm_num) (by norm_num) (by norm_num)]
      linarith
  · have hd : 0 < deltaOf r g b := by
      rcases lt_or_eq_of_le (by unfold deltaOf; linarith : (0:ℚ) ≤ deltaOf r g b) with h | h
      · exact h
      · exact absurd h.symm hd0
    have hd1 : deltaOf r g b ≤ 1 := by unfold deltaOf; linarith
    by_cases hcr : cmaxOf r g b = chan r
    · have hHue : hueOf r g b = 60 * pymod ((chan g - chan b) / deltaOf r g b) 6 := by
        unfold hueOf
        rw [if_pos ⟨hcr, hd⟩]
      rw [hHue]
      have h360 : 60 * pymod ((chan g - chan b) / deltaOf r g b) 6 / 360 =
          pymod ((chan g - chan b) / deltaOf r g b) 6 / 6 := by ring
      rw [h360]
      set t := (chan g - chan b) / deltaOf r g b with htdef
      have hdelta : deltaOf r g b = cmaxOf r g b - cminOf r g b := rfl
      have hthi : t ≤ 1 := by
        rw [htdef, div_le_one hd, hdelta]
        linarith
      have htlo : -1 ≤ t := by
        rw [htdef, le_div_iff₀ hd, hdelta]
        linarith
      have hti : t = 0 ∨ t ≤ -1/255 ∨ 1/255 ≤ t := by
        rw [htdef]
        exact quantized_ratio g b (deltaOf r g b) hd hd1
      exact ⟨lb_redmax_red v1 v2 t h20 h21 h11 htlo hthi,
        lb_redmax_green v1 v2 t h20 h21 h11 htlo hthi,
        lb_redmax_blue v1 v2 t h20 h21 h11 htlo hthi hti⟩
    · by_cases hcg : cmaxOf r g b = chan g
      · have hHue : hueOf r g b = 60 * ((chan b - chan r) / deltaOf r g b + 2) := by
          unfold hueOf
          rw [if_neg (fun h => hcr h.1), if_pos ⟨hcg, hd⟩]
        rw [hHue]
        have h360 : 60 * ((chan b - chan r) / deltaOf r g b + 2) / 360 =
            ((chan b - chan r) / deltaOf r g b + 2) / 6 := by ring
        rw [h360]
        set u := (chan b - chan r) / deltaOf r g b with hudef
        have hdelta : deltaOf r g b = cmaxOf r g b - cminOf r g b := rfl
        have huhi : u ≤ 1 := by
          rw [hudef, div_le_one hd, hdelta]
          linarith
        have hulo : -1 ≤ u := by
          rw [hudef, le_div_iff₀ hd, hdelta]
          linarith
        have hui : u = 0 ∨ u ≤ -1/255 ∨ 1/255 ≤ u := by
          rw [hudef]
          exact quantized_ratio b r (deltaOf r g b) hd hd1
        exact ⟨lb_greenmax_red v1 v2 u h20 h21 h11 hulo huhi hui,
          lb_greenmax_green v1 v2 u h20 h21 h11 hulo huhi,
          lb_greenmax_blue v1 v2 u h20 h21 h11 hulo huhi⟩
      · have hcb : cmaxOf r g b = chan b := by
          rcases max_choice (chan r) (max (chan g) (chan b)) with h | h
          · exact absurd h hcr
          · rcases max_choice (chan g) (chan b) with h2 | h2
            · exfalso
              apply hcg
              unfold cmaxOf
              rw [h, h2]
            · unfold cmaxOf
              rw [h, h2]
        have hHue : hueOf r g b = 60 * ((chan r - chan g) / deltaOf r g b + 4) := by
          unfold hueOf
          rw [if_neg (fun h => hcr h.1), if_neg (fun h => hcg h.1), if_pos ⟨hcb, hd⟩]
        rw [hHue]
        have h360 : 60 * ((chan r - chan g) / deltaOf r g b + 4) / 360 =
            ((chan r - chan g) / deltaOf r g b + 4) / 6 := by ring
        rw [h360]
        set w := (chan r - chan g) / deltaOf r g b with hwdef
        have hdelta : deltaOf r g b = cmaxOf r g b - cminOf r g b := rfl
        have hwhi : w ≤ 1 := by
          rw [hwdef, div_le_one hd, hdelta]
          linarith
        have hwlo : -1 ≤ w := by
          rw [hwdef, le_div_iff₀ hd, hdelta]
          linarith
        have hwi : w = 0 ∨ w ≤ -1/255 ∨ 1/255 ≤ w := by
          rw [hwdef]
          exact quantized_ratio r g (deltaOf r g b) hd hd1
        exact ⟨lb_bluemax_red v1 v2 w h20 h21 h11 hwlo hwhi,
          lb_bluemax_green v1 v2 w h20 h21 h11 hwlo hwhi hwi,
          lb_bluemax_blue v1 v2 w h20 h21 h11 hwlo hwhi⟩

end Lightener
namespace Lightener

theorem hueOf_range (r g b : ℕ) : 0 ≤ hueOf r g b ∧ hueOf r g b < 360 := by
  have hRM : chan r ≤ cmaxOf r g b := le_max_left _ _
  have hGM : chan g ≤ cmaxOf r g b := le_trans (le_max_left _ _) (le_max_right _ _)
  have hBM : chan b ≤ cmaxOf r g b := le_trans (le_max_right _ _) (le_max_right _ _)
  have hmR : cminOf r g b ≤ chan r := min_le_left _ _
  have hmG : cminOf r g b ≤ chan g := le_trans (min_le_right _ _) (min_le_left _ _)
  have hmB : cminOf r g b ≤ chan b := le_trans (min_le_right _ _) (min_le_right _ _)
  have hdelta : deltaOf r g b = cmaxOf r g b - cminOf r g b := rfl
  unfold hueOf
  split_ifs with h1 h2 h3
  · have := pymod_six_bounds ((chan g - chan b) / deltaOf r g b)
    constructor <;> linarith
  · obtain ⟨hmax, hd⟩ := h2
    have hu1 : (chan b - chan r) / deltaOf r g b ≤ 1 := by
      rw [div_le_one hd, hdelta]
      linarith
    have hu2 : -1 ≤ (chan b - chan r) / deltaOf r g b := by
      rw [le_div_iff₀ hd, hdelta]
      linarith
    constructor <;> linarith
  · obtain ⟨hmax, hd⟩ := h3
    have hu1 : (chan r - chan g) / deltaOf r g b ≤ 1 := by
      rw [div_le_one hd, hdelta]
      linarith
    have hu2 : -1 ≤ (chan r - chan g) / deltaOf r g b := by
      rw [le_div_iff₀ hd, hdelta]
      linarith
    constructor <;> linarith
  · norm_num

theorem pyHex2_wellformed : ∀ n : ℕ, n < 256 → (pyHex2 (n : ℤ)).length = 2 ∧
    ∀ c ∈ pyHex2 (n : ℤ), isHexDigit c = true := by
  intro n hn
  rw [pyHex2_eq n hn]
  refine ⟨rfl, ?_⟩
  intro c hc
  rcases List.mem_cons.mp hc with h | h
  · rw [h]
    exact hexDigitChar_hex (n / 16) (by omega)
  · rcases List.mem_cons.mp h with h2 | h2
    · rw [h2]
      exact hexDigitChar_hex (n % 16) (Nat.mod_lt n (by omega))
    · exact absurd h2 (List.not_mem_nil c)

/-- C2: for every HSL value produced by the pipeline (hue from `_rgb_to_hsl`
on a valid RGB triple, saturation and lightness in `[0, 100]` after
adjustment), the hex string returned by `hsl_to_hex` is exactly 6 characters:
each of the three channel integers is in `[0, 255]` and is formatted as 2
lowercase, zero-padded hex digits. -/
theorem hsl_to_hex_wellformed (r g b : ℕ) (hr : r ≤ 255) (hg : g ≤ 255) (hb : b ≤ 255)
    (s l : ℚ) (hs0 : 0 ≤ s) (hs1 : s ≤ 100) (hl0 : 0 ≤ l) (hl1 : l ≤ 100) :
    (0 ≤ (hsl_to_rgb (rgb_to_hsl r g b).1 s l).1 ∧
      (hsl_to_rgb (rgb_to_hsl r g b).1 s l).1 ≤ 255) ∧
    (0 ≤ (hsl_to_rgb (rgb_to_hsl r g b).1 s l).2.1 ∧
      (hsl_to_rgb (rgb_to_hsl r g b).1 s l).2.1 ≤ 255) ∧
    (0 ≤ (hsl_to_rgb (rgb_to_hsl r g b).1 s l).2.2 ∧
      (hsl_to_rgb (rgb_to_hsl r g b).1 s l).2.2 ≤ 255) ∧
    (pyHex2 (hsl_to_rgb (rgb_to_hsl r g b).1 s l).1).length = 2 ∧
    (pyHex2 (hsl_to_rgb (rgb_to_hsl r g b).1 s l).2.1).length = 2 ∧
    (pyHex2 (hsl_to_rgb (rgb_to_hsl r g b).1 s l).2.2).length = 2 ∧
    hsl_to_hex ((rgb_to_hsl r g b).1, s, l) =
      pyHex2 (hsl_to_rgb (rgb_to_hsl r g b).1 s l).1 ++
      pyHex2 (hsl_to_rgb (rgb_to_hsl r g b).1 s l).2.1 ++
      pyHex2 (hsl_to_rgb (rgb_to_hsl r g b).1 s l).2.2 ∧
    (hsl_to_hex ((rgb_to_hsl r g b).1, s, l)).length = 6 ∧
    (∀ c ∈ hsl_to_hex ((rgb_to_hsl r g b).1, s, l), isHexDigit c = true) := by
  simp only [rgb_to_hsl_eq]
  rw [show s = s / 100 * 100 by ring, show l = l / 100 * 100 by ring]
  simp only [hsl_to_rgb_core]
  set V1 := if l / 100 < 1/2 then l / 100 * (1 + s / 100)
    else (l / 100 + s / 100) - l / 100 * (s / 100) with hV1
  set V2 := 2 * (l / 100) - V1 with hV2
  have hvb := var_bounds (s / 100) (l / 100) (by linarith) (by linarith)
    (by linarith) (by linarith)
  obtain ⟨hv20, hv21, hv11⟩ := hvb
  obtain ⟨hlb1, hlb2, hlb3⟩ := lb_hue_all r g b hr hg hb V1 V2 hv20 hv21 hv11
  obtain ⟨hH0, hH360⟩ := hueOf_range r g b
  have hx0 : 0 ≤ hueOf r g b / 360 := by positivity
  have hx1 : hueOf r g b / 360 < 1 := by
    rw [div_lt_one (by norm_num : (0:ℚ) < 360)]
    linarith
  have hkey2 : ∀ vH : ℚ, -1 ≤ vH → vH ≤ 2 → -1 < 255 * hue_to_rgb V1 V2 vH →
      0 ≤ ⌈255 * hue_to_rgb V1 V2 vH⌉ ∧ ⌈255 * hue_to_rgb V1 V2 vH⌉ ≤ 255 := by
    intro vH hlo hhi hlb
    constructor
    · have : (-1 : ℤ) < ⌈255 * hue_to_rgb V1 V2 vH⌉ :=
        Int.lt_ceil.mpr (by push_cast; linarith)
      omega
    · apply Int.ceil_le.mpr
      push_cast
      have := hue_le_left V1 V2 vH hv21 hlo hhi
      linarith
  have hq1 := hkey2 (hueOf r g b / 360 + 333/1000) (by linarith) (by linarith) hlb1
  have hq2 := hkey2 (hueOf r g b / 360) (by linarith) (by linarith) hlb2
  have hq3 := hkey2 (hueOf r g b / 360 - 333/1000) (by linarith) (by linarith) hlb3
  have hw1 := pyHex2_wellformed (⌈255 * hue_to_rgb V1 V2 (hueOf r g b / 360 + 333/1000)⌉).toNat
    (by omega)
  have hw2 := pyHex2_wellformed (⌈255 * hue_to_rgb V1 V2 (hueOf r g b / 360)⌉).toNat
    (by omega)
  have hw3 := pyHex2_wellformed (⌈255 * hue_to_rgb V1 V2 (hueOf r g b / 360 - 333/1000)⌉).toNat
    (by omega)
  rw [Int.toNat_of_nonneg hq1.1] at hw1
  rw [Int.toNat_of_nonneg hq2.1] at hw2
  rw [Int.toNat_of_nonneg hq3.1] at hw3
  have hdecomp : hsl_to_hex (hueOf r g b, s / 100 * 100, l / 100 * 100) =
      pyHex2 ⌈255 * hue_to_rgb V1 V2 (hueOf r g b / 360 + 333/1000)⌉ ++
      pyHex2 ⌈255 * hue_to_rgb V1 V2 (hueOf r g b / 360)⌉ ++
      pyHex2 ⌈255 * hue_to_rgb V1 V2 (hueOf r g b / 360 - 333/1000)⌉ := by
    unfold hsl_to_hex
    simp only [hsl_to_rgb_core]
  refine ⟨hq1, hq2, hq3, hw1.1, hw2.1, hw3.1, hdecomp, ?_, ?_⟩
  · rw [hdecomp]
    simp only [List.length_append, hw1.1, hw2.1, hw3.1]
  · rw [hdecomp]
    intro c hc
    rcases List.mem_append.mp hc with h | h
    · rcases List.mem_append.mp h with h2 | h2
      · exact hw1.2 c h2
      · exact hw2.2 c h2
    · exact hw3.2 c h
end Lightener

namespace Lightener

/-- Witness for C1 at the input `"ff0000"`. -/
theorem hex_round_trip_witness :
    |((hex_to_rgb (hsl_to_hex (hex_to_hsl ['f', 'f', '0', '0', '0', '0']))).1 : ℤ) -
      ((hex_to_rgb ['f', 'f', '0', '0', '0', '0']).1 : ℤ)| ≤ 1 ∧
    |((hex_to_rgb (hsl_to_hex (hex_to_hsl ['f', 'f', '0', '0', '0', '0']))).2.1 : ℤ) -
      ((hex_to_rgb ['f', 'f', '0', '0', '0', '0']).2.1 : ℤ)| ≤ 1 ∧
    |((hex_to_rgb (hsl_to_hex (hex_to_hsl ['f', 'f', '0', '0', '0', '0']))).2.2 : ℤ) -
      ((hex_to_rgb ['f', 'f', '0', '0', '0', '0']).2.2 : ℤ)| ≤ 1 :=
  hex_round_trip ['f', 'f', '0', '0', '0', '0'] (by decide) (by decide)

/-- Witness for C2 at the color `"2aa198"` (42, 161, 152) with adjusted
saturation 90 and lightness 40. -/
theorem hsl_to_hex_wellformed_witness :
    (hsl_to_hex ((rgb_to_hsl 42 161 152).1, 90, 40)).length = 6 ∧
    (0 ≤ (hsl_to_rgb (rgb_to_hsl 42 161 152).1 90 40).1 ∧
      (hsl_to_rgb (rgb_to_hsl 42 161 152).1 90 40).1 ≤ 255) := by
  have h := hsl_to_hex_wellformed 42 161 152 (by norm_num) (by norm_num) (by norm_num)
    90 40 (by norm_num) (by norm_num) (by norm_num) (by norm_num)
  exact ⟨h.2.2.2.2.2.2.2.1, h.1⟩

end Lightener
